import Mathlib

/-!
Verification development for the `llm-browser` repository.

The Python sources are shallowly embedded here:
  * `src/llm_browser/models.py`   — the SQLite-backed cache (`Database`)
  * `src/llm_browser/utils/url.py`  — URL normalisation and GitHub rewrites
  * `src/llm_browser/utils/grep.py` — the grep-style content filter
  * `src/llm_browser/server.py`   — the `search_cached_content` tool
  * `src/llm_browser/utils/html.py` — content selection and navigation
    extraction (on an explicit HTML tree model)

Python strings are modelled as `List Char` (wrapped in `String` at the
API boundary); Python string primitives (`in`, `split`, `replace`,
`lower`, `strip`) are re-implemented structurally below so that all
definitions evaluate by kernel reduction.  Python floats are modelled by
`ℚ`; every fact proved about heuristic scores is an inequality that is
robust to the float/rational distinction.
-/

namespace LlmBrowser

/-! ## Python string primitives -/

/-- Whitespace test for Python `str.strip()` (ASCII subset). -/
def isWS (c : Char) : Bool := c = ' ' ∨ c = '\n' ∨ c = '\t' ∨ c = '\r'

/-- Python `s.strip()` on ASCII whitespace. -/
def pyStripL (s : List Char) : List Char :=
  ((s.dropWhile isWS).reverse.dropWhile isWS).reverse

def pyStrip (s : String) : String := ⟨pyStripL s.data⟩

/-- Python `str.lower()` restricted to ASCII (the sources only compare
ASCII markers; `Char.toLower` is itself ASCII-only). -/
def pyLowerL (s : List Char) : List Char := s.map Char.toLower

def pyLower (s : String) : String := ⟨pyLowerL s.data⟩

/-- Python substring test `pat in s`. -/
def containsSub (pat : List Char) : List Char → Bool
  | [] => pat.isEmpty
  | c :: rest => pat.isPrefixOf (c :: rest) || containsSub pat rest

def containsStr (pat s : String) : Bool := containsSub pat.data s.data

/-- Python `s.split('?', 1)` as used by `github_url_to_raw`: the part
before the first `?`, and the rest with the `?` still attached (the code
re-attaches it as `f"?{url_parts[1]}"`). -/
def splitFirstQ : List Char → List Char × List Char
  | [] => ([], [])
  | c :: rest =>
    if c = '?' then ([], c :: rest)
    else
      let p := splitFirstQ rest
      (c :: p.1, p.2)

/-- Python `s.split(sep)` for a one-character separator. -/
def splitOnChar (sep : Char) : List Char → List (List Char)
  | [] => [[]]
  | c :: rest =>
    if c = sep then [] :: splitOnChar sep rest
    else
      match splitOnChar sep rest with
      | l :: ls => (c :: l) :: ls
      | [] => [[c]]

/-- Python `content.split("\n")`. -/
def splitLinesL (s : List Char) : List (List Char) := splitOnChar '\n' s

def splitLines (s : String) : List String := (splitLinesL s.data).map String.mk

/-- Python `sep.join(parts)`. -/
def joinWith (sep : List Char) : List (List Char) → List Char
  | [] => []
  | [l] => l
  | l :: ls => l ++ sep ++ joinWith sep ls

def joinStrings (sep : String) (ls : List String) : String :=
  ⟨joinWith sep.data (ls.map String.data)⟩

/-- Worker for Python `s.replace(pat, rep)` with non-empty pattern
`ph :: pt`.  `skip` counts pattern characters still to be consumed after
a replacement was emitted.  Structural in the list, so it evaluates by
kernel reduction. -/
def replaceAllGo (ph : Char) (pt rep : List Char) : List Char → Nat → List Char
  | [], _ => []
  | _ :: rest, skip + 1 => replaceAllGo ph pt rep rest skip
  | c :: rest, 0 =>
    if (ph :: pt).isPrefixOf (c :: rest) then
      rep ++ replaceAllGo ph pt rep rest pt.length
    else
      c :: replaceAllGo ph pt rep rest 0

/-- Python `s.replace(pat, rep)`; the sources only call it with a
non-empty literal pattern, so the empty-pattern case is left as the
identity. -/
def pyReplaceL (pat rep s : List Char) : List Char :=
  match pat with
  | [] => s
  | ph :: pt => replaceAllGo ph pt rep s 0

def pyReplace (s pat rep : String) : String := ⟨pyReplaceL pat.data rep.data s.data⟩

/-! ## Lemmas about the string primitives -/

theorem containsSub_iff (pat s : List Char) :
    containsSub pat s = true ↔ ∃ x y, s = x ++ pat ++ y := by
  induction s with
  | nil =>
    simp only [containsSub, List.isEmpty_iff]
    constructor
    · rintro rfl; exact ⟨[], [], rfl⟩
    · rintro ⟨x, y, h⟩
      rcases List.append_eq_nil.mp (List.append_eq_nil.mp h.symm).1 with ⟨-, rfl⟩
      rfl
  | cons c rest ih =>
    simp only [containsSub, Bool.or_eq_true, ih]
    constructor
    · rintro (h | ⟨x, y, rfl⟩)
      · rcases List.isPrefixOf_iff_prefix.mp h with ⟨y, hy⟩
        exact ⟨[], y, by simpa using hy.symm⟩
      · exact ⟨c :: x, y, rfl⟩
    · rintro ⟨x, y, hxy⟩
      cases x with
      | nil =>
        exact Or.inl (List.isPrefixOf_iff_prefix.mpr ⟨y, by simpa using hxy.symm⟩)
      | cons a x' =>
        simp only [List.cons_append, List.cons.injEq] at hxy
        exact Or.inr ⟨x', y, hxy.2⟩

theorem containsSub_of_right {pat y : List Char} (x : List Char)
    (h : containsSub pat y = true) : containsSub pat (x ++ y) = true := by
  rcases (containsSub_iff pat y).mp h with ⟨a, b, rfl⟩
  exact (containsSub_iff pat _).mpr ⟨x ++ a, b, by simp⟩

theorem containsSub_here (pat x y : List Char) :
    containsSub pat (x ++ pat ++ y) = true :=
  (containsSub_iff pat _).mpr ⟨x, y, rfl⟩

/-- If the pattern does not occur in `s`, Python `replace` is the identity. -/
theorem replaceAllGo_of_not_contains (ph : Char) (pt rep : List Char) :
    ∀ s : List Char, containsSub (ph :: pt) s = false →
      replaceAllGo ph pt rep s 0 = s := by
  intro s
  induction s with
  | nil => intro _; rfl
  | cons c rest ih =>
    intro h
    simp only [containsSub, Bool.or_eq_false_iff] at h
    simp only [replaceAllGo, h.1, Bool.false_eq_true, if_false, ih h.2]

/-- In skip mode, `replaceAllGo` discards exactly `x.length` characters. -/
theorem replaceAllGo_skip (ph : Char) (pt rep : List Char) :
    ∀ x y : List Char, replaceAllGo ph pt rep (x ++ y) x.length =
      replaceAllGo ph pt rep y 0 := by
  intro x
  induction x with
  | nil => intro y; rfl
  | cons c x' ih => intro y; simpa [replaceAllGo] using ih y

theorem pyReplaceL_of_not_contains {pat : List Char} (rep s : List Char)
    (hpat : pat ≠ []) (h : containsSub pat s = false) :
    pyReplaceL pat rep s = s := by
  cases pat with
  | nil => exact absurd rfl hpat
  | cons ph pt => exact replaceAllGo_of_not_contains ph pt rep s h

/-- Replacement at the first pattern occurrence: if no occurrence of the
pattern starts strictly inside `x` (equivalently, the pattern does not
fit inside `x ++ pat.dropLast`), then `replace` rewrites the designated
occurrence and continues after it. -/
theorem replaceAllGo_first (ph : Char) (pt rep : List Char) :
    ∀ x y : List Char,
      containsSub (ph :: pt) (x ++ (ph :: pt).dropLast) = false →
      replaceAllGo ph pt rep (x ++ ((ph :: pt) ++ y)) 0 =
        x ++ rep ++ replaceAllGo ph pt rep y 0 := by
  intro x
  induction x with
  | nil =>
    intro y _
    have hpre : (ph :: pt).isPrefixOf (ph :: (pt ++ y)) = true :=
      List.isPrefixOf_iff_prefix.mpr ⟨y, by simp⟩
    simp only [List.nil_append, List.cons_append, replaceAllGo, List.append_eq]
    rw [if_pos hpre]
    simpa using replaceAllGo_skip ph pt rep pt y
  | cons c x' ih =>
    intro y h
    have h' : (ph :: pt).isPrefixOf (c :: (x' ++ (ph :: pt).dropLast)) = false ∧
        containsSub (ph :: pt) (x' ++ (ph :: pt).dropLast) = false := by
      simpa [containsSub, List.cons_append] using h
    have hkey : (ph :: pt).dropLast ++ ((ph :: pt).getLast (by simp) :: y) =
        (ph :: pt) ++ y := by
      rw [show ((ph :: pt).getLast (by simp) :: y) =
            [(ph :: pt).getLast (by simp)] ++ y from rfl,
        ← List.append_assoc, List.dropLast_append_getLast]
    have hnp : (ph :: pt).isPrefixOf (c :: (x' ++ ((ph :: pt) ++ y))) = false := by
      cases hp : (ph :: pt).isPrefixOf (c :: (x' ++ ((ph :: pt) ++ y))) with
      | false => rfl
      | true =>
        exfalso
        have hps : (ph :: pt) <+: c :: (x' ++ ((ph :: pt) ++ y)) :=
          List.isPrefixOf_iff_prefix.mp hp
        have hsplit : (c :: (x' ++ (ph :: pt).dropLast)) ++
              ((ph :: pt).getLast (by simp) :: y) =
            c :: (x' ++ ((ph :: pt) ++ y)) := by
          have hr : (c :: (x' ++ (ph :: pt).dropLast)) ++
                ((ph :: pt).getLast (by simp) :: y) =
              c :: (x' ++ ((ph :: pt).dropLast ++
                ((ph :: pt).getLast (by simp) :: y))) := by simp
          rw [hr, hkey]
        have hz : (c :: (x' ++ (ph :: pt).dropLast)) <+:
            c :: (x' ++ ((ph :: pt) ++ y)) :=
          ⟨(ph :: pt).getLast (by simp) :: y, hsplit⟩
        have hlen : (ph :: pt).length ≤ (c :: (x' ++ (ph :: pt).dropLast)).length := by
          simp only [List.length_cons, List.length_append, List.length_dropLast]
          omega
        have hfit : (ph :: pt) <+: c :: (x' ++ (ph :: pt).dropLast) :=
          List.prefix_of_prefix_length_le hps hz hlen
        have htrue : (ph :: pt).isPrefixOf (c :: (x' ++ (ph :: pt).dropLast)) = true :=
          List.isPrefixOf_iff_prefix.mpr hfit
        rw [h'.1] at htrue
        exact Bool.false_ne_true htrue
    simp only [List.cons_append] at hnp
    have hgoal : replaceAllGo ph pt rep ((c :: x') ++ ((ph :: pt) ++ y)) 0 =
        c :: replaceAllGo ph pt rep (x' ++ ((ph :: pt) ++ y)) 0 := by
      simp only [List.cons_append, replaceAllGo, List.append_eq, hnp,
        Bool.false_eq_true, if_false]
    rw [hgoal, ih y h'.2]
    simp

theorem splitFirstQ_no_q : ∀ s : List Char, containsSub ['?'] s = false →
    splitFirstQ s = (s, []) := by
  intro s
  induction s with
  | nil => intro _; rfl
  | cons c rest ih =>
    intro h
    simp only [containsSub, Bool.or_eq_false_iff] at h
    have hc : ¬ c = '?' := by
      intro hc
      subst hc
      simp [List.isPrefixOf] at h
    simp [splitFirstQ, hc, ih h.2]

theorem splitFirstQ_mid : ∀ (x : List Char) (q : List Char),
    containsSub ['?'] x = false →
    splitFirstQ (x ++ '?' :: q) = (x, '?' :: q) := by
  intro x
  induction x with
  | nil => intro q _; simp [splitFirstQ]
  | cons c x' ih =>
    intro q h
    simp only [containsSub, Bool.or_eq_false_iff] at h
    have hc : ¬ c = '?' := by
      intro hc
      subst hc
      simp [List.isPrefixOf] at h
    simp [splitFirstQ, hc, ih q h.2]

theorem splitOnChar_sep_free : ∀ s : List Char, (sep : Char) →
    containsSub [sep] s = false → splitOnChar sep s = [s] := by
  intro s
  induction s with
  | nil => intro _ _; rfl
  | cons c rest ih =>
    intro sep h
    simp only [containsSub, Bool.or_eq_false_iff] at h
    have hc : ¬ c = sep := by
      intro hc
      subst hc
      simp [List.isPrefixOf] at h
    simp [splitOnChar, hc, ih sep h.2]

theorem splitOnChar_append_sep : ∀ (x : List Char) (sep : Char) (y : List Char),
    containsSub [sep] x = false →
    splitOnChar sep (x ++ sep :: y) = x :: splitOnChar sep y := by
  intro x
  induction x with
  | nil => intro sep y _; simp [splitOnChar]
  | cons c x' ih =>
    intro sep y h
    simp only [containsSub, Bool.or_eq_false_iff] at h
    have hc : ¬ c = sep := by
      intro hc
      subst hc
      simp [List.isPrefixOf] at h
    simp [splitOnChar, hc, ih sep y h.2]

/-! ## `models.py` — the cache database

The SQLite table `web_cache` is modelled as an association list from the
primary-key string `id` to the row; SQL `SELECT ... WHERE id = ...`
becomes association-list lookup, `UPDATE` an in-place map, `INSERT` an
append, `DELETE` / `drop_all` the empty list. -/

/-- One row of the `web_cache` table (`WebCache` in `models.py`). -/
structure WebCache where
  url : String
  content : String
  markdown_content : String
  timestamp : Nat
  prefer_raw : Nat
  include_navigation : Nat
  content_priority : String
deriving DecidableEq

/-- The table contents, in insertion order, keyed by the `id` column. -/
abbrev CacheState : Type := List (String × WebCache)

/-- `Database._generate_cache_id`:
`f"{url}|{raw_flag}|{nav_flag}|{content_priority}"`. -/
def generate_cache_id (url : String) (prefer_raw : Bool) (include_navigation : Bool)
    (content_priority : String) : String :=
  url ++ "|" ++ (if prefer_raw then "1" else "0") ++ "|" ++
    (if include_navigation then "1" else "0") ++ "|" ++ content_priority

/-- `SELECT * FROM web_cache WHERE id = cache_id` (first match). -/
def lookupId (s : CacheState) (id : String) : Option WebCache :=
  match s with
  | [] => none
  | kv :: rest => if kv.1 = id then some kv.2 else lookupId rest id

/-- `Database.get_cached_content`: returns the row's
`(content, markdown_content, timestamp)` when the id built from the URL
and the three feature flags is present (the returned dict exposes exactly
these fields, with `html_content` an alias of `content`). -/
def get_cached_content (s : CacheState) (url : String) (prefer_raw : Bool)
    (include_navigation : Bool) (content_priority : String) :
    Option (String × String × Nat) :=
  (lookupId s (generate_cache_id url prefer_raw include_navigation content_priority)).map
    (fun e => (e.content, e.markdown_content, e.timestamp))

/-- `Database.cache_content`: update the existing row for the id, or
insert a new one; `now` stands for `int(time.time())`. -/
def cache_content (s : CacheState) (url content markdown_content : String)
    (prefer_raw : Bool) (include_navigation : Bool) (content_priority : String)
    (now : Nat) : CacheState :=
  let id := generate_cache_id url prefer_raw include_navigation content_priority
  match lookupId s id with
  | some _ =>
    s.map (fun kv =>
      if kv.1 = id then
        (kv.1, ⟨kv.2.url, content, markdown_content, now,
                kv.2.prefer_raw, kv.2.include_navigation, kv.2.content_priority⟩)
      else kv)
  | none =>
    s ++ [(id, ⟨url, content, markdown_content, now,
                if prefer_raw then 1 else 0,
                if include_navigation then 1 else 0,
                content_priority⟩)]

/-- `Database.clear_cache`: delete every row, returning the count. -/
def clear_cache (s : CacheState) : CacheState × Nat := ([], s.length)

/-- `Database._initialize_database`, run unconditionally by
`Database.__init__`: `Base.metadata.drop_all(...)` followed by
`create_all(...)` — the resulting table is empty whatever it held
before. -/
def database_init (_s : CacheState) : CacheState := []

/-! ### Cache lemmas -/

theorem lookupId_map_other (s : CacheState) (id id' : String) (f : WebCache → WebCache)
    (h : id' ≠ id) :
    lookupId (s.map (fun kv => if kv.1 = id then (kv.1, f kv.2) else kv)) id' =
      lookupId s id' := by
  induction s with
  | nil => rfl
  | cons kv rest ih =>
    have hfst : (if kv.1 = id then (kv.1, f kv.2) else kv).1 = kv.1 := by
      split <;> rfl
    by_cases hk' : kv.1 = id'
    · have hkid : ¬ kv.1 = id := fun hc => h (hk' ▸ hc ▸ rfl : id' = id)
      simp [lookupId, hkid, hk', h]
    · simp only [List.map_cons, lookupId, hfst, hk', if_false, ih]

theorem lookupId_map_self (s : CacheState) (id : String) (f : WebCache → WebCache) :
    ∀ e, lookupId s id = some e →
    lookupId (s.map (fun kv => if kv.1 = id then (kv.1, f kv.2) else kv)) id =
      some (f e) := by
  induction s with
  | nil => intro e h; simp [lookupId] at h
  | cons kv rest ih =>
    intro e h
    have hfst : (if kv.1 = id then (kv.1, f kv.2) else kv).1 = kv.1 := by
      split <;> rfl
    by_cases hk : kv.1 = id
    · simp only [lookupId, hk, if_true, Option.some.injEq] at h
      subst h
      simp [lookupId, hk]
    · simp only [lookupId, hk, if_false] at h
      simp only [List.map_cons, lookupId, hfst, hk, if_false, ih e h]

theorem lookupId_append_other (s : CacheState) (id id' : String) (e : WebCache)
    (h : id' ≠ id) :
    lookupId (s ++ [(id, e)]) id' = lookupId s id' := by
  induction s with
  | nil =>
    show (if id = id' then some e else lookupId [] id') = none
    rw [if_neg (fun hc => h hc.symm)]
    rfl
  | cons kv rest ih =>
    by_cases hk : kv.1 = id'
    · simp [lookupId, hk]
    · simp [lookupId, hk, ih]

theorem lookupId_append_self (s : CacheState) (id : String) (e : WebCache)
    (h : lookupId s id = none) :
    lookupId (s ++ [(id, e)]) id = some e := by
  induction s with
  | nil => simp [lookupId]
  | cons kv rest ih =>
    by_cases hk : kv.1 = id
    · simp [lookupId, hk] at h
    · simp [lookupId, hk] at h ⊢
      exact ih h

theorem generate_cache_id_data (url : String) (pr nav : Bool) (cp : String) :
    (generate_cache_id url pr nav cp).data =
      url.data ++ '|' :: (if pr then '1' else '0') :: '|' ::
        (if nav then '1' else '0') :: '|' :: cp.data := by
  cases pr <;> cases nav <;>
    simp [generate_cache_id, String.data_append]

/-- Distinct flag triples give distinct cache ids for the same URL. -/
theorem generate_cache_id_injective_flags (url : String)
    (pr nav : Bool) (cp : String) (pr' nav' : Bool) (cp' : String)
    (h : pr ≠ pr' ∨ nav ≠ nav' ∨ cp ≠ cp') :
    generate_cache_id url pr nav cp ≠ generate_cache_id url pr' nav' cp' := by
  intro heq
  have hdata := congrArg String.data heq
  rw [generate_cache_id_data, generate_cache_id_data] at hdata
  have htail := List.append_cancel_left hdata
  simp only [List.cons.injEq, true_and] at htail
  obtain ⟨ha, hb, hcp⟩ := htail
  rcases h with h | h | h
  · apply h; cases pr <;> cases pr' <;> simp_all
  · apply h; cases nav <;> cases nav' <;> simp_all
  · exact h (String.ext_iff.mpr hcp)

/-! ### C1 and C2 -/

/-- C1: the claim states that stored cache entries are deleted only by
the explicit `clear_cache` operation and in particular survive
construction/initialisation of the `Database`.  The code violates this:
`Database.__init__` always runs `_initialize_database`, which calls
`Base.metadata.drop_all` and thereby discards every stored entry.  This
theorem evaluates the embedded code at the failing scenario: any entry
stored by `cache_content` is gone after `database_init`. -/
theorem database_init_discards_entries (s : CacheState)
    (url content markdown_content : String) (pr nav : Bool) (cp : String) (now : Nat)
    (url' : String) (pr' nav' : Bool) (cp' : String) :
    get_cached_content
      (database_init (cache_content s url content markdown_content pr nav cp now))
      url' pr' nav' cp' = none ∧
    database_init (cache_content s url content markdown_content pr nav cp now) = [] := by
  exact ⟨rfl, rfl⟩

/-- C2: for a fixed normalized URL, requests differing in any of
`prefer_raw`, `include_navigation`, `content_priority` map to distinct
cache ids, identical flags map to the identical id; consequently a
freshly stored entry is found again under the same flags (cache hit)
while a lookup under different flags is unaffected by the store (cache
miss if it was absent before). -/
theorem cache_key_flag_sensitivity :
    (∀ (url : String) (pr nav : Bool) (cp : String) (pr' nav' : Bool) (cp' : String),
      (pr ≠ pr' ∨ nav ≠ nav' ∨ cp ≠ cp') →
      generate_cache_id url pr nav cp ≠ generate_cache_id url pr' nav' cp') ∧
    (∀ (s : CacheState) (url c md : String) (pr nav : Bool) (cp : String) (now : Nat),
      get_cached_content (cache_content s url c md pr nav cp now) url pr nav cp =
        some (c, md, now)) ∧
    (∀ (s : CacheState) (url c md : String) (pr nav : Bool) (cp : String) (now : Nat)
       (pr' nav' : Bool) (cp' : String),
      (pr ≠ pr' ∨ nav ≠ nav' ∨ cp ≠ cp') →
      get_cached_content (cache_content s url c md pr nav cp now) url pr' nav' cp' =
        get_cached_content s url pr' nav' cp') := by
  refine ⟨generate_cache_id_injective_flags, ?_, ?_⟩
  · intro s url c md pr nav cp now
    cases hl : lookupId s (generate_cache_id url pr nav cp) with
    | some e =>
      simp only [get_cached_content, cache_content, hl]
      rw [lookupId_map_self s (generate_cache_id url pr nav cp)
        (fun v => ⟨v.url, c, md, now, v.prefer_raw, v.include_navigation,
          v.content_priority⟩) e hl]
      rfl
    | none =>
      simp only [get_cached_content, cache_content, hl]
      rw [lookupId_append_self s _ _ hl]
      rfl
  · intro s url c md pr nav cp now pr' nav' cp' hdiff
    have hne : generate_cache_id url pr' nav' cp' ≠ generate_cache_id url pr nav cp :=
      fun hc => generate_cache_id_injective_flags url pr nav cp pr' nav' cp' hdiff hc.symm
    cases hl : lookupId s (generate_cache_id url pr nav cp) with
    | some e =>
      simp only [get_cached_content, cache_content, hl]
      rw [lookupId_map_other s (generate_cache_id url pr nav cp)
        (generate_cache_id url pr' nav' cp')
        (fun v => ⟨v.url, c, md, now, v.prefer_raw, v.include_navigation,
          v.content_priority⟩) hne]
    | none =>
      simp only [get_cached_content, cache_content, hl]
      rw [lookupId_append_other s _ _ _ hne]

/-- Witness for C2 at concrete inputs. -/
theorem cache_key_flag_sensitivity_witness :
    generate_cache_id "https://e.com/p" true false "auto" ≠
      generate_cache_id "https://e.com/p" false false "auto" ∧
    get_cached_content
      (cache_content [] "https://e.com/p" "<p>c</p>" "c" true false "auto" 7)
      "https://e.com/p" true false "auto" = some ("<p>c</p>", "c", 7) ∧
    get_cached_content
      (cache_content [] "https://e.com/p" "<p>c</p>" "c" true false "auto" 7)
      "https://e.com/p" false false "auto" = none := by
  refine ⟨cache_key_flag_sensitivity.1 _ _ _ _ _ _ _ (Or.inl (by decide)), ?_, ?_⟩
  · exact cache_key_flag_sensitivity.2.1 [] "https://e.com/p" "<p>c</p>" "c" true false "auto" 7
  · rw [cache_key_flag_sensitivity.2.2 [] "https://e.com/p" "<p>c</p>" "c" true false "auto" 7
      false false "auto" (Or.inl (by decide))]
    rfl

/-! ## `utils/url.py` — GitHub URL rewriting

`github_url_to_raw` and `is_github_url` work on raw strings with
substring tests (`"github.com" in github_url`, `"/edit/" in base_url`,
`str.replace`, `str.split('?', 1)`), not on parsed host/path
components. -/

/-- `github_url_to_raw` from `utils/url.py`. -/
def github_url_to_raw (github_url : String) : String :=
  if containsStr "github.com" github_url = false then github_url
  else
    let parts := splitFirstQ github_url.data
    let base_url := parts.1
    let query := parts.2
    if containsSub "/edit/".data base_url then
      ⟨pyReplaceL "/edit/".data "/raw/".data base_url ++ query⟩
    else if containsSub "/blob/".data base_url then
      ⟨pyReplaceL "/blob/".data "/".data
        (pyReplaceL "github.com".data "raw.githubusercontent.com".data base_url) ++
        query⟩
    else github_url

/-- `is_github_url` from `utils/url.py`:
`"github.com" in url and ("/blob/" in url or "/edit/" in url)`. -/
def is_github_url (url : String) : Bool :=
  containsStr "github.com" url && (containsStr "/blob/" url || containsStr "/edit/" url)

/-- Modelled from the spec: the host component of a URL, read off the
spec's phrasing "host is github.com" (the characters between `://` and
the next `/`, `?` or `#`).  Used only to state the claims, which speak
of hosts and paths; the code itself never parses the URL. -/
def findSchemeRest : List Char → List Char
  | [] => []
  | c :: rest =>
    if c = ':' ∧ [ '/', '/' ].isPrefixOf rest then rest.drop 2
    else findSchemeRest rest

def specHost (url : String) : String :=
  ⟨(findSchemeRest url.data).takeWhile (fun c => ¬ (c = '/' ∨ c = '?' ∨ c = '#'))⟩

/-- Modelled from the spec: the path component of a URL (from the first
`/` after the host up to `?`/`#`). -/
def specPath (url : String) : String :=
  ⟨((findSchemeRest url.data).dropWhile
      (fun c => ¬ (c = '/' ∨ c = '?' ∨ c = '#'))).takeWhile
    (fun c => ¬ (c = '?' ∨ c = '#'))⟩

/-! ### More containment lemmas -/

theorem containsSub_of_left {pat x : List Char} (y : List Char)
    (h : containsSub pat x = true) : containsSub pat (x ++ y) = true := by
  rcases (containsSub_iff pat x).mp h with ⟨a, b, rfl⟩
  exact (containsSub_iff pat _).mpr ⟨a, b ++ y, by simp⟩

theorem splitFirstQ_fst_prefix (l : List Char) :
    ∃ rest, l = (splitFirstQ l).1 ++ rest := by
  induction l with
  | nil => exact ⟨[], rfl⟩
  | cons c cs ih =>
    by_cases hc : c = '?'
    · exact ⟨c :: cs, by simp [splitFirstQ, hc]⟩
    · rcases ih with ⟨rest, hrest⟩
      refine ⟨rest, ?_⟩
      simp only [splitFirstQ, hc, if_false]
      simpa using hrest

/-- Occurrence-splitting workhorse: a pattern `ph :: pt` is absent from
`x ++ y` as soon as it is absent from `x`, absent from `y`, and its head
character does not occur among the last `pt.length` characters of `x`
(so no occurrence can straddle the boundary). -/
theorem containsSub_append_eq_false (ph : Char) (pt : List Char) :
    ∀ x y : List Char,
      containsSub (ph :: pt) x = false →
      containsSub (ph :: pt) y = false →
      ph ∉ x.drop (x.length - pt.length) →
      containsSub (ph :: pt) (x ++ y) = false := by
  intro x
  induction x with
  | nil => intro y _ hy _; simpa using hy
  | cons c x' ih =>
    intro y hx hy hstr
    simp only [containsSub, Bool.or_eq_false_iff] at hx
    have hstr' : ph ∉ x'.drop (x'.length - pt.length) := by
      intro hmem
      apply hstr
      rcases Nat.le_total pt.length x'.length with hle | hle
      · have : (c :: x').length - pt.length = (x'.length - pt.length) + 1 := by
          simp only [List.length_cons]; omega
        rw [this, List.drop_succ_cons]
        exact hmem
      · have h0 : x'.length - pt.length = 0 := by omega
        rw [h0, List.drop_zero] at hmem
        have hk : (c :: x').length - pt.length ≤ 1 := by
          simp only [List.length_cons]; omega
        rcases Nat.le_one_iff_eq_zero_or_eq_one.mp hk with hk0 | hk1
        · rw [hk0, List.drop_zero]; exact List.mem_cons_of_mem c hmem
        · rw [hk1]; simpa using hmem
    have hrec : containsSub (ph :: pt) (x' ++ y) = false := ih y hx.2 hy hstr'
    have hhead : (ph :: pt).isPrefixOf (c :: (x' ++ y)) = false := by
      cases hp : (ph :: pt).isPrefixOf (c :: (x' ++ y)) with
      | false => rfl
      | true =>
        exfalso
        have hps : (ph :: pt) <+: c :: (x' ++ y) := List.isPrefixOf_iff_prefix.mp hp
        by_cases hfit : pt.length + 1 ≤ x'.length + 1
        · have hcx : (ph :: pt) <+: c :: x' := by
            have h1 : (ph :: pt) <+: (c :: x') ++ y := by simpa using hps
            rcases h1 with ⟨t, ht⟩
            have := List.prefix_of_prefix_length_le
              (⟨t, ht⟩ : (ph :: pt) <+: (c :: x') ++ y)
              (⟨y, rfl⟩ : (c :: x') <+: (c :: x') ++ y)
              (by simpa using hfit)
            exact this
          have : (ph :: pt).isPrefixOf (c :: x') = true :=
            List.isPrefixOf_iff_prefix.mpr hcx
          rw [hx.1] at this
          exact Bool.false_ne_true this
        · have hcph : c = ph := by
            rcases hps with ⟨t, ht⟩
            exact (List.cons.injEq _ _ _ _ ▸ ht).1.symm
          apply hstr
          have h0 : (c :: x').length - pt.length = 0 := by
            simp only [List.length_cons]; omega
          rw [h0, List.drop_zero, hcph]
          exact List.mem_cons_self ph x'
    simp only [List.cons_append, containsSub, List.append_eq, hhead, hrec, Bool.or_self]

/-! ### C4 -/

/-- C4 counterexample: a URL whose host is `example.com` (not
`github.com`) but which mentions `github.com` and `/blob/` in its path
is rewritten, not returned unchanged — the code tests substrings of the
whole URL, not the host component. -/
theorem github_url_to_raw_offsite_counterexample :
    specHost "https://example.com/github.com/blob/x" = "example.com" ∧
    github_url_to_raw "https://example.com/github.com/blob/x" ≠
      "https://example.com/github.com/blob/x" ∧
    github_url_to_raw "https://example.com/github.com/blob/x" =
      "https://example.com/raw.githubusercontent.com/x" := by
  refine ⟨by decide, by decide, by decide⟩

/-- C4 (amended): `github_url_to_raw` is the identity on every URL in
which the substring `github.com` does not occur at all, and on every URL
in which neither `/blob/` nor `/edit/` occurs before the first `?`; in
particular it is the identity whenever `is_github_url` is false. -/
theorem github_url_to_raw_identity :
    (∀ url : String,
      containsStr "github.com" url = false ∨
        (containsSub "/blob/".data (splitFirstQ url.data).1 = false ∧
         containsSub "/edit/".data (splitFirstQ url.data).1 = false) →
      github_url_to_raw url = url) ∧
    (∀ url : String, is_github_url url = false → github_url_to_raw url = url) := by
  have hmain : ∀ url : String,
      containsStr "github.com" url = false ∨
        (containsSub "/blob/".data (splitFirstQ url.data).1 = false ∧
         containsSub "/edit/".data (splitFirstQ url.data).1 = false) →
      github_url_to_raw url = url := by
    intro url h
    unfold github_url_to_raw
    rcases h with h | ⟨hb, he⟩
    · simp [h]
    · by_cases hg : containsStr "github.com" url = false
      · simp [hg]
      · simp [hg, hb, he]
  refine ⟨hmain, ?_⟩
  intro url h
  simp only [is_github_url, containsStr, Bool.and_eq_false_iff, Bool.or_eq_false_iff] at h
  rcases h with h | ⟨hblob, hedit⟩
  · exact hmain url (Or.inl h)
  · refine hmain url (Or.inr ⟨?_, ?_⟩)
    · rcases splitFirstQ_fst_prefix url.data with ⟨rest, hrest⟩
      cases hc : containsSub "/blob/".data (splitFirstQ url.data).1 with
      | false => rfl
      | true =>
        exfalso
        have := containsSub_of_left rest hc
        rw [← hrest] at this
        rw [this] at hblob
        simp at hblob
    · rcases splitFirstQ_fst_prefix url.data with ⟨rest, hrest⟩
      cases hc : containsSub "/edit/".data (splitFirstQ url.data).1 with
      | false => rfl
      | true =>
        exfalso
        have := containsSub_of_left rest hc
        rw [← hrest] at this
        rw [this] at hedit
        simp at hedit

/-- Witness for C4 at concrete inputs. -/
theorem github_url_to_raw_identity_witness :
    github_url_to_raw "https://docs.python.org/3/library/re.html" =
      "https://docs.python.org/3/library/re.html" ∧
    github_url_to_raw "https://github.com/angelsen/llm-browser" =
      "https://github.com/angelsen/llm-browser" := by
  constructor
  · exact github_url_to_raw_identity.1 _ (Or.inl (by decide))
  · exact github_url_to_raw_identity.1 _ (Or.inr (by decide))

theorem containsSub_single_of_not_mem {c : Char} {s : List Char} (h : c ∉ s) :
    containsSub [c] s = false := by
  cases hc : containsSub [c] s with
  | false => rfl
  | true =>
    exfalso
    rcases (containsSub_iff [c] s).mp hc with ⟨x, y, rfl⟩
    exact h (by simp)

theorem containsSub_single_append {c : Char} {x y : List Char}
    (hx : containsSub [c] x = false) (hy : containsSub [c] y = false) :
    containsSub [c] (x ++ y) = false :=
  containsSub_append_eq_false c [] x y hx hy (by simp)

/-! ### C3 -/

/-- C3 counterexample: a GitHub file URL whose path contains `/blob/`
but also `/edit/` (an ordinary directory named `edit`) takes the
`/edit/`-branch, which keeps host `github.com` — the rewrite to
`raw.githubusercontent.com` promised by the claim for every `/blob/`
path does not happen. -/
theorem github_url_to_raw_blob_counterexample :
    is_github_url "https://github.com/u/r/blob/main/edit/x.md" = true ∧
    containsStr "/blob/" (specPath "https://github.com/u/r/blob/main/edit/x.md") = true ∧
    specHost "https://github.com/u/r/blob/main/edit/x.md" = "github.com" ∧
    github_url_to_raw "https://github.com/u/r/blob/main/edit/x.md" =
      "https://github.com/u/r/blob/main/raw/x.md" ∧
    specHost (github_url_to_raw "https://github.com/u/r/blob/main/edit/x.md") ≠
      "raw.githubusercontent.com" := by
  refine ⟨by decide, by decide, by decide, by decide, by decide⟩

/-- C3 (amended): for a GitHub file URL `https://github.com<path><query>`:
if the path contains `/blob/` and no `/edit/`, the result moves to host
`raw.githubusercontent.com` with the `/blob/` segment collapsed to `/`
and the query preserved verbatim; if the path contains `/edit/` (whether
or not it also contains `/blob/`), the result keeps host `github.com`
with `/edit/` rewritten to `/raw/` and the query preserved verbatim.
The hypotheses say the exhibited occurrence is the first and only one,
that the path carries no stray `github.com`/`?`, and that `q` is either
empty or a `?`-introduced query string. -/
theorem github_url_to_raw_rewrites :
    (∀ p1 p2 q : List Char,
      containsSub "/edit/".data (p1 ++ "/blob/".data ++ p2) = false →
      containsSub "github.com".data (p1 ++ "/blob/".data ++ p2) = false →
      containsSub "/blob/".data (p1 ++ "/blob".data) = false →
      containsSub "/blob/".data p2 = false →
      '?' ∉ p1 → '?' ∉ p2 →
      (q = [] ∨ ∃ qr, q = '?' :: qr) →
      github_url_to_raw ⟨"https://github.com".data ++ (p1 ++ "/blob/".data ++ p2) ++ q⟩ =
        ⟨"https://raw.githubusercontent.com".data ++ (p1 ++ "/".data ++ p2) ++ q⟩) ∧
    (∀ p1 p2 q : List Char,
      containsSub "/edit/".data (p1 ++ "/edit".data) = false →
      containsSub "/edit/".data p2 = false →
      '?' ∉ p1 → '?' ∉ p2 →
      (q = [] ∨ ∃ qr, q = '?' :: qr) →
      github_url_to_raw ⟨"https://github.com".data ++ (p1 ++ "/edit/".data ++ p2) ++ q⟩ =
        ⟨"https://github.com".data ++ (p1 ++ "/raw/".data ++ p2) ++ q⟩) := by
  constructor
  · intro p1 p2 q h1 h2 h3 h4 hq1 hq2 hq
    have hC : "https://github.com".data = "https://".data ++ "github.com".data := by decide
    have hg : containsSub "github.com".data
        ("https://github.com".data ++ (p1 ++ "/blob/".data ++ p2) ++ q) = true := by
      rw [hC]
      have := containsSub_here "github.com".data "https://".data
        ((p1 ++ "/blob/".data ++ p2) ++ q)
      simpa [List.append_assoc] using this
    have hnqpath : containsSub ['?'] (p1 ++ "/blob/".data ++ p2) = false := by
      refine containsSub_single_append (containsSub_single_append
        (containsSub_single_of_not_mem hq1) (by decide)) (containsSub_single_of_not_mem hq2)
    have hnqbase : containsSub ['?']
        ("https://github.com".data ++ (p1 ++ "/blob/".data ++ p2)) = false :=
      containsSub_single_append (by decide) hnqpath
    have hsplit : splitFirstQ
        ("https://github.com".data ++ (p1 ++ "/blob/".data ++ p2) ++ q) =
        ("https://github.com".data ++ (p1 ++ "/blob/".data ++ p2), q) := by
      rcases hq with rfl | ⟨qr, rfl⟩
      · rw [List.append_nil]
        exact splitFirstQ_no_q _ hnqbase
      · rw [List.append_assoc]
        exact splitFirstQ_mid _ qr hnqbase
    have hedrw : "/edit/".data = '/' :: "edit/".data := by decide
    have hedit_base : containsSub "/edit/".data
        ("https://github.com".data ++ (p1 ++ "/blob/".data ++ p2)) = false := by
      rw [hedrw]
      exact containsSub_append_eq_false '/' "edit/".data _ _
        (by decide) (by rw [← hedrw]; exact h1) (by decide)
    have hblob_base : containsSub "/blob/".data
        ("https://github.com".data ++ (p1 ++ "/blob/".data ++ p2)) = true := by
      have := containsSub_here "/blob/".data ("https://github.com".data ++ p1) p2
      simpa [List.append_assoc] using this
    have hghrw : "github.com".data = 'g' :: "ithub.com".data := by decide
    have hfst1 := replaceAllGo_first 'g' "ithub.com".data
      "raw.githubusercontent.com".data "https://".data
      (p1 ++ "/blob/".data ++ p2) (by decide)
    have hnot1 := replaceAllGo_of_not_contains 'g' "ithub.com".data
      "raw.githubusercontent.com".data (p1 ++ "/blob/".data ++ p2)
      (by rw [← hghrw]; exact h2)
    have hR1 : pyReplaceL "github.com".data "raw.githubusercontent.com".data
        ("https://github.com".data ++ (p1 ++ "/blob/".data ++ p2)) =
        "https://raw.githubusercontent.com".data ++ (p1 ++ "/blob/".data ++ p2) := by
      rw [hghrw]
      show replaceAllGo 'g' "ithub.com".data "raw.githubusercontent.com".data _ 0 = _
      rw [hnot1] at hfst1
      rw [show "https://github.com".data ++ (p1 ++ "/blob/".data ++ p2) =
            "https://".data ++ (('g' :: "ithub.com".data) ++ (p1 ++ "/blob/".data ++ p2))
          from by rw [hC, List.append_assoc, hghrw]]
      rw [hfst1]
      rw [show "https://".data ++ "raw.githubusercontent.com".data =
            "https://raw.githubusercontent.com".data from by decide]
    have hblrw : "/blob/".data = '/' :: "blob/".data := by decide
    have hnot2 := replaceAllGo_of_not_contains '/' "blob/".data "/".data p2
      (by rw [← hblrw]; exact h4)
    have hfirst2 : containsSub ('/' :: "blob/".data)
        (("https://raw.githubusercontent.com".data ++ p1) ++
          ('/' :: "blob/".data).dropLast) = false := by
      rw [show ('/' :: "blob/".data).dropLast = "/blob".data from by decide,
        List.append_assoc]
      exact containsSub_append_eq_false '/' "blob/".data _ _
        (by decide) (by rw [← hblrw]; exact h3) (by decide)
    have hfst2 := replaceAllGo_first '/' "blob/".data "/".data
      ("https://raw.githubusercontent.com".data ++ p1) p2 hfirst2
    have hR2 : pyReplaceL "/blob/".data "/".data
        ("https://raw.githubusercontent.com".data ++ (p1 ++ "/blob/".data ++ p2)) =
        "https://raw.githubusercontent.com".data ++ (p1 ++ "/".data ++ p2) := by
      rw [hblrw]
      show replaceAllGo '/' "blob/".data "/".data _ 0 = _
      rw [hnot2] at hfst2
      rw [show "https://raw.githubusercontent.com".data ++
            (p1 ++ ('/' :: "blob/".data) ++ p2) =
            ("https://raw.githubusercontent.com".data ++ p1) ++
              (('/' :: "blob/".data) ++ p2)
          from by simp [List.append_assoc]]
      rw [hfst2]
      simp [List.append_assoc]
    have hrepr : ((⟨"https://github.com".data ++ (p1 ++ "/blob/".data ++ p2) ++ q⟩ :
        String)).data = "https://github.com".data ++ (p1 ++ "/blob/".data ++ p2) ++ q :=
      rfl
    simp only [github_url_to_raw, containsStr, hrepr, hg, Bool.true_eq_false, if_false,
      hsplit, hedit_base, Bool.false_eq_true, hblob_base, if_true]
    apply congrArg String.mk
    show pyReplaceL "/blob/".data "/".data
        (pyReplaceL "github.com".data "raw.githubusercontent.com".data
          ("https://github.com".data ++ (p1 ++ "/blob/".data ++ p2))) ++ q =
      "https://raw.githubusercontent.com".data ++ (p1 ++ "/".data ++ p2) ++ q
    rw [hR1, hR2]
  · intro p1 p2 q h1 h2 hq1 hq2 hq
    have hC : "https://github.com".data = "https://".data ++ "github.com".data := by decide
    have hg : containsSub "github.com".data
        ("https://github.com".data ++ (p1 ++ "/edit/".data ++ p2) ++ q) = true := by
      rw [hC]
      have := containsSub_here "github.com".data "https://".data
        ((p1 ++ "/edit/".data ++ p2) ++ q)
      simpa [List.append_assoc] using this
    have hnqpath : containsSub ['?'] (p1 ++ "/edit/".data ++ p2) = false := by
      refine containsSub_single_append (containsSub_single_append
        (containsSub_single_of_not_mem hq1) (by decide)) (containsSub_single_of_not_mem hq2)
    have hnqbase : containsSub ['?']
        ("https://github.com".data ++ (p1 ++ "/edit/".data ++ p2)) = false :=
      containsSub_single_append (by decide) hnqpath
    have hsplit : splitFirstQ
        ("https://github.com".data ++ (p1 ++ "/edit/".data ++ p2) ++ q) =
        ("https://github.com".data ++ (p1 ++ "/edit/".data ++ p2), q) := by
      rcases hq with rfl | ⟨qr, rfl⟩
      · rw [List.append_nil]
        exact splitFirstQ_no_q _ hnqbase
      · rw [List.append_assoc]
        exact splitFirstQ_mid _ qr hnqbase
    have hedrw : "/edit/".data = '/' :: "edit/".data := by decide
    have hedit_base : containsSub "/edit/".data
        ("https://github.com".data ++ (p1 ++ "/edit/".data ++ p2)) = true := by
      have := containsSub_here "/edit/".data ("https://github.com".data ++ p1) p2
      simpa [List.append_assoc] using this
    have hnotE := replaceAllGo_of_not_contains '/' "edit/".data "/raw/".data p2
      (by rw [← hedrw]; exact h2)
    have hfirstE : containsSub ('/' :: "edit/".data)
        (("https://github.com".data ++ p1) ++
          ('/' :: "edit/".data).dropLast) = false := by
      rw [show ('/' :: "edit/".data).dropLast = "/edit".data from by decide,
        List.append_assoc]
      exact containsSub_append_eq_false '/' "edit/".data _ _
        (by decide) (by rw [← hedrw]; exact h1) (by decide)
    have hfstE := replaceAllGo_first '/' "edit/".data "/raw/".data
      ("https://github.com".data ++ p1) p2 hfirstE
    have hR : pyReplaceL "/edit/".data "/raw/".data
        ("https://github.com".data ++ (p1 ++ "/edit/".data ++ p2)) =
        "https://github.com".data ++ (p1 ++ "/raw/".data ++ p2) := by
      rw [hedrw]
      show replaceAllGo '/' "edit/".data "/raw/".data _ 0 = _
      rw [hnotE] at hfstE
      rw [show "https://github.com".data ++ (p1 ++ ('/' :: "edit/".data) ++ p2) =
            ("https://github.com".data ++ p1) ++ (('/' :: "edit/".data) ++ p2)
          from by simp [List.append_assoc]]
      rw [hfstE]
      simp [List.append_assoc]
    have hrepr : ((⟨"https://github.com".data ++ (p1 ++ "/edit/".data ++ p2) ++ q⟩ :
        String)).data = "https://github.com".data ++ (p1 ++ "/edit/".data ++ p2) ++ q :=
      rfl
    simp only [github_url_to_raw, containsStr, hrepr, hg, Bool.true_eq_false, if_false,
      hsplit, hedit_base, if_true]
    apply congrArg String.mk
    show pyReplaceL "/edit/".data "/raw/".data
        ("https://github.com".data ++ (p1 ++ "/edit/".data ++ p2)) ++ q =
      "https://github.com".data ++ (p1 ++ "/raw/".data ++ p2) ++ q
    rw [hR]

/-- Witness for C3 at concrete inputs (one blob URL, one edit URL with a
query string). -/
theorem github_url_to_raw_rewrites_witness :
    github_url_to_raw "https://github.com/u/r/blob/main/README.md" =
      "https://raw.githubusercontent.com/u/r/main/README.md" ∧
    github_url_to_raw "https://github.com/u/r/edit/main/README.md?plain=1" =
      "https://github.com/u/r/raw/main/README.md?plain=1" := by
  constructor
  · have := github_url_to_raw_rewrites.1 "/u/r".data "main/README.md".data []
      (by decide) (by decide) (by decide) (by decide) (by decide) (by decide)
      (Or.inl rfl)
    simpa using this
  · have := github_url_to_raw_rewrites.2 "/u/r".data "main/README.md".data "?plain=1".data
      (by decide) (by decide) (by decide) (by decide)
      (Or.inr ⟨"plain=1".data, by decide⟩)
    simpa using this

/-! ## `utils/grep.py` — `grep_content`

`re.compile`/`regex.search` are abstracted by an optional line predicate
`matcher : Option (String → Bool)`: `some f` models a pattern that
compiled, with `f line = true` iff `regex.search(line)` finds a match
(for `whole_words` the wrapping happens before compilation, so `f` is
the matcher of the wrapped pattern and the flag needs no separate
parameter); `none` models a pattern whose compilation raises `re.error`,
which the `except re.error:` handler turns into the substring-fallback
branch — the function itself never raises. -/

/-- `f"{i + 1}: "` when line numbers are requested. -/
def lineNumPrefix (show_line_numbers : Bool) (i : Nat) : String :=
  if show_line_numbers then toString (i + 1) ++ ": " else ""

/-- `grep_content` from `utils/grep.py`.  `matched` is the ascending
list of matching line indices (Python builds a `set` of indices drawn
from `enumerate` and later sorts it); `indices` adds the context window
`[max(0, i - context_lines), min(n, i + context_lines + 1))` around
each match when requested. -/
def grep_content (matcher : Option (String → Bool)) (content pattern : String)
    (context_lines : Nat) (invert_match show_line_numbers : Bool) : String :=
  if pattern = "" then content
  else
    let lines := splitLines content
    let n := lines.length
    let result_lines : List String :=
      match matcher with
      | some regex =>
        let matched := (List.range n).filter
          (fun i => regex (lines.getD i "") != invert_match)
        let indices :=
          if 0 < context_lines ∧ invert_match = false then
            (List.range n).filter (fun j =>
              matched.any (fun i => i ≤ j + context_lines ∧ j ≤ i + context_lines))
          else matched
        indices.map (fun i =>
          let npfx := lineNumPrefix show_line_numbers i
          let mpfx :=
            if 0 < context_lines ∧ invert_match = false then
              if regex (lines.getD i "") then "> " ++ npfx else "  " ++ npfx
            else npfx
          mpfx ++ lines.getD i "")
      | none =>
        (List.range n).filterMap (fun i =>
          let line := lines.getD i ""
          if containsStr (pyLower pattern) (pyLower line) != invert_match then
            some (lineNumPrefix show_line_numbers i ++ line)
          else none)
    if result_lines = [] then "No content matching the pattern was found."
    else joinStrings "\n" result_lines

/-- Modelled from the spec: the regex-failure fallback is plain per-line
case-insensitive substring matching — no context expansion, no
match/context marker — with the same numbering, inversion and
no-match-sentinel behaviour as the main path. -/
def substringFilterSpec (content pattern : String)
    (invert_match show_line_numbers : Bool) : String :=
  let lines := splitLines content
  let result_lines := (List.range lines.length).filterMap (fun i =>
    let line := lines.getD i ""
    if containsStr (pyLower pattern) (pyLower line) != invert_match then
      some (lineNumPrefix show_line_numbers i ++ line)
    else none)
  if result_lines = [] then "No content matching the pattern was found."
  else joinStrings "\n" result_lines

/-! ### Helper lemmas for grep -/

theorem joinStrings_cons_cons (sep a b : String) (rest : List String) :
    joinStrings sep (a :: b :: rest) = a ++ sep ++ joinStrings sep (b :: rest) := by
  apply String.ext
  simp [joinStrings, joinWith, String.data_append]

theorem joinStrings_single (sep a : String) : joinStrings sep [a] = a := by
  apply String.ext
  simp [joinStrings, joinWith]

theorem splitLines_append (a : String) (rest : String) (h : '\n' ∉ a.data) :
    splitLines (a ++ "\n" ++ rest) = a :: splitLines rest := by
  have hd : (a ++ "\n" ++ rest).data = a.data ++ '\n' :: rest.data := by
    simp [String.data_append]
  simp only [splitLines, splitLinesL, hd]
  rw [splitOnChar_append_sep a.data '\n' rest.data (containsSub_single_of_not_mem h)]
  simp [splitLines, splitLinesL]

theorem splitLines_no_newline (a : String) (h : '\n' ∉ a.data) :
    splitLines a = [a] := by
  simp only [splitLines, splitLinesL]
  rw [splitOnChar_sep_free a.data '\n' (containsSub_single_of_not_mem h)]
  simp

/-! ### C6 -/

/-- C6: on a five-line input whose (compiled) pattern matches exactly
line 3, `grep_content` with `context_lines = 1` (no inversion, no line
numbers) outputs exactly lines 2, 3, 4 in ascending order, marking
line 3 as a direct match (`"> "`) and lines 2 and 4 as context
(`"  "`). -/
theorem grep_context_window (l1 l2 l3 l4 l5 pattern : String)
    (regex : String → Bool) (hpat : pattern ≠ "")
    (n1 : '\n' ∉ l1.data) (n2 : '\n' ∉ l2.data) (n3 : '\n' ∉ l3.data)
    (n4 : '\n' ∉ l4.data) (n5 : '\n' ∉ l5.data)
    (h1 : regex l1 = false) (h2 : regex l2 = false) (h3 : regex l3 = true)
    (h4 : regex l4 = false) (h5 : regex l5 = false) :
    grep_content (some regex)
      (l1 ++ "\n" ++ (l2 ++ "\n" ++ (l3 ++ "\n" ++ (l4 ++ "\n" ++ l5))))
      pattern 1 false false =
      "  " ++ l2 ++ "\n" ++ ("> " ++ l3 ++ "\n" ++ ("  " ++ l4)) := by
  have hsplit : splitLines
      (l1 ++ "\n" ++ (l2 ++ "\n" ++ (l3 ++ "\n" ++ (l4 ++ "\n" ++ l5)))) =
      [l1, l2, l3, l4, l5] := by
    rw [splitLines_append l1 _ n1, splitLines_append l2 _ n2,
      splitLines_append l3 _ n3, splitLines_append l4 _ n4,
      splitLines_no_newline l5 n5]
  simp only [grep_content, hpat, ite_false, hsplit]
  simp only [List.length_cons, List.length_nil]
  have hrange : List.range 5 = [0, 1, 2, 3, 4] := by decide
  rw [show (0 : Nat) + 1 + 1 + 1 + 1 + 1 = 5 from rfl, hrange]
  simp [List.getD_cons_zero, List.getD_cons_succ, h1, h2, h3, h4, h5, lineNumPrefix,
    joinStrings_cons_cons, joinStrings_single]

/-- Witness for C6 at concrete inputs. -/
theorem grep_context_window_witness :
    grep_content (some (fun s => s == "ccc"))
      ("aaa" ++ "\n" ++ ("bbb" ++ "\n" ++ ("ccc" ++ "\n" ++ ("ddd" ++ "\n" ++ "eee"))))
      "ccc" 1 false false =
      "  " ++ "bbb" ++ "\n" ++ ("> " ++ "ccc" ++ "\n" ++ ("  " ++ "ddd")) := by
  exact grep_context_window "aaa" "bbb" "ccc" "ddd" "eee" "ccc" (fun s => s == "ccc")
    (by decide) (by decide) (by decide) (by decide) (by decide) (by decide)
    (by decide) (by decide) (by decide) (by decide) (by decide)

/-! ### C7 -/

/-- C7: when the pattern fails to compile (`matcher = none`, the
`re.error` branch), `grep_content` performs per-line case-insensitive
substring matching, with no context expansion (the result does not
depend on `context_lines` at all) and no match/context marker; the
embedding is a total function, so nothing is raised. -/
theorem grep_fallback_substring (content pattern : String)
    (context_lines : Nat) (invert_match show_line_numbers : Bool)
    (hpat : pattern ≠ "") :
    grep_content none content pattern context_lines invert_match show_line_numbers =
      substringFilterSpec content pattern invert_match show_line_numbers := by
  simp only [grep_content, substringFilterSpec, hpat, ite_false]

/-- Witness for C7 at a concrete input: the unbalanced-parenthesis
pattern `"("` fails to compile in Python, and the fallback finds the
line containing `"("` as a substring independently of
`context_lines`. -/
theorem grep_fallback_substring_witness :
    grep_content none ("foo (bar" ++ "\n" ++ "baz") "(" 3 false false =
      substringFilterSpec ("foo (bar" ++ "\n" ++ "baz") "(" false false ∧
    substringFilterSpec ("foo (bar" ++ "\n" ++ "baz") "(" false false = "foo (bar" := by
  exact ⟨grep_fallback_substring _ _ 3 false false (by decide), by decide⟩

/-! ## `server.py` — `search_cached_content` -/

/-- The first-ten-lines preview built for a matching entry. -/
def search_preview (filtered : String) : String :=
  let lines := (splitLines filtered).take 10
  let preview := joinStrings "\n" lines
  if 10 ≤ lines.length then preview ++ "\n...(more results truncated)..." else preview

/-- Per-entry inclusion test of `search_cached_content`:
`if filtered_content and "No content matching" not in filtered_content`. -/
def search_entry_included (matcher : Option (String → Bool)) (grep_pattern : String)
    (context_lines : Nat) (invert_match show_line_numbers : Bool)
    (markdown_content : String) : Bool :=
  let filtered := grep_content matcher markdown_content grep_pattern
    context_lines invert_match show_line_numbers
  (filtered != "") && (!containsStr "No content matching" filtered)

/-- The `matched_results` list of `search_cached_content`, over the
cache entries as `(url, markdown_content)` pairs. -/
def search_cached_results (matcher : Option (String → Bool)) (grep_pattern : String)
    (context_lines : Nat) (invert_match show_line_numbers : Bool)
    (entries : List (String × String)) : List String :=
  entries.filterMap (fun e =>
    let filtered := grep_content matcher e.2 grep_pattern
      context_lines invert_match show_line_numbers
    if (filtered != "") && (!containsStr "No content matching" filtered) then
      some ("### URL: " ++ e.1 ++ "\n" ++ search_preview filtered ++ "\n")
    else none)

/-! ### C10 -/

/-- C10: `search_cached_content` drops an entry whenever the grep output
for it contains the substring `"No content matching"` — including when
that substring comes from the page's own text rather than from the
no-match sentinel.  Concretely, a cached page consisting of the line
`"No content matching the pattern was found."` is excluded even though
the search pattern (`"matching"`, matching that very line) does match
lines of the page. -/
theorem search_excludes_sentinel_lookalike :
    (∀ (matcher : Option (String → Bool)) (grep_pattern : String)
       (context_lines : Nat) (invert_match show_line_numbers : Bool)
       (url markdown_content : String) (entries : List (String × String)),
      containsStr "No content matching"
          (grep_content matcher markdown_content grep_pattern
            context_lines invert_match show_line_numbers) = true →
      search_entry_included matcher grep_pattern context_lines invert_match
          show_line_numbers markdown_content = false ∧
      search_cached_results matcher grep_pattern context_lines invert_match
          show_line_numbers ((url, markdown_content) :: entries) =
        search_cached_results matcher grep_pattern context_lines invert_match
          show_line_numbers entries) ∧
    ((fun line => containsStr "matching" line)
        "No content matching the pattern was found." = true ∧
      search_cached_results (some (fun line => containsStr "matching" line))
        "matching" 0 false false
        [("https://e.com/p", "No content matching the pattern was found.")] = []) := by
  constructor
  · intro matcher grep_pattern context_lines invert_match show_line_numbers
      url markdown_content entries h
    constructor
    · simp [search_entry_included, h]
    · simp only [search_cached_results, List.filterMap_cons]
      rw [if_neg]
      simp only [h, Bool.not_true, Bool.and_false]
      simp
  · exact ⟨by decide, by decide⟩

/-- Witness for C10 at a concrete input: applying the exclusion rule to
the sentinel-lookalike page. -/
theorem search_excludes_sentinel_lookalike_witness :
    search_entry_included (some (fun line => containsStr "matching" line))
      "matching" 0 false false "No content matching the pattern was found." = false := by
  exact (search_excludes_sentinel_lookalike.1
    (some (fun line => containsStr "matching" line)) "matching" 0 false false
    "u" "No content matching the pattern was found." [] (by decide)).1

/-! ## `utils/url.py` — `remove_tracking_params`

`urllib.parse` is modelled for `scheme://netloc/path?query#fragment`
URLs: `urlparse` (without `;params` splitting — the claims' URLs carry
none and the code passes `parsed.params` straight through),
`parse_qs` with its default `keep_blank_values=False` (blank-valued
pairs are dropped; percent and plus decoding is not modelled, so theorems
restrict keys and values to characters that `quote_plus` leaves
untouched), and `urlencode(..., doseq=True)` over the resulting
name → values dict, whose insertion order is first key occurrence.
Python's `urlparse` does not raise on `str` input, so the `except`
branch of `remove_tracking_params` is dead on this domain and the
embedding is total. -/

/-- Split at the first occurrence of a character, if any. -/
def splitAtCharOpt (c : Char) : List Char → List Char × Option (List Char)
  | [] => ([], none)
  | x :: rest =>
    if x = c then ([], some rest)
    else
      let p := splitAtCharOpt c rest
      (x :: p.1, p.2)

/-- Locate the `://` following the scheme. -/
def findSSlash : List Char → Option (List Char × List Char)
  | [] => none
  | c :: rest =>
    if c = ':' ∧ ['/', '/'].isPrefixOf rest then some ([], rest.drop 2)
    else
      match findSSlash rest with
      | some p => some (c :: p.1, p.2)
      | none => none

/-- `urllib.parse.urlparse` restricted as described above; returns
`(scheme, netloc, path, query, fragment)` with `[]` for absent query
and fragment. -/
def pyUrlparse (url : List Char) :
    List Char × List Char × List Char × List Char × List Char :=
  let notDelim : Char → Bool := fun c => ¬ (c = '/' ∨ c = '?' ∨ c = '#')
  match findSSlash url with
  | some (scheme, rest) =>
    let netloc := rest.takeWhile notDelim
    let rest2 := rest.dropWhile notDelim
    let pf := splitAtCharOpt '#' rest2
    let pq := splitAtCharOpt '?' pf.1
    (scheme, netloc, pq.1, (pq.2).getD [], (pf.2).getD [])
  | none =>
    let pf := splitAtCharOpt '#' url
    let pq := splitAtCharOpt '?' pf.1
    ([], [], pq.1, (pq.2).getD [], (pf.2).getD [])

/-- `urllib.parse.parse_qsl` with `keep_blank_values=False`: split on
`&`, then each segment on its first `=`; segments without `=` or with
an empty value are dropped. -/
def parse_qsl (query : List Char) : List (List Char × List Char) :=
  (splitOnChar '&' query).filterMap (fun seg =>
    match splitAtCharOpt '=' seg with
    | (k, some v) => if v = [] then none else some (k, v)
    | (_, none) => none)

/-- Ordered-dict insertion used by `parse_qs`: append the value to an
existing key, or append a new key at the end. -/
def qsInsert (acc : List (List Char × List (List Char))) (k v : List Char) :
    List (List Char × List (List Char)) :=
  match acc with
  | [] => [(k, [v])]
  | kv :: rest =>
    if kv.1 = k then (kv.1, kv.2 ++ [v]) :: rest
    else kv :: qsInsert rest k v

def qsFold (pairs : List (List Char × List Char))
    (acc : List (List Char × List (List Char))) :
    List (List Char × List (List Char)) :=
  match pairs with
  | [] => acc
  | p :: rest => qsFold rest (qsInsert acc p.1 p.2)

/-- `urllib.parse.parse_qs`. -/
def parse_qs (query : List Char) : List (List Char × List (List Char)) :=
  qsFold (parse_qsl query) []

/-- `urllib.parse.urlencode(..., doseq=True)` on characters that need
no quoting. -/
def urlencodeDoseq (qs : List (List Char × List (List Char))) : List Char :=
  joinWith ['&'] (qs.flatMap (fun kv => kv.2.map (fun v => kv.1 ++ '=' :: v)))

/-- `urllib.parse.urlunparse` with empty `params`. -/
def pyUrlunparse (scheme netloc path query fragment : List Char) : List Char :=
  let u1 := if netloc = [] then path else '/' :: '/' :: (netloc ++ path)
  let u2 := if scheme = [] then u1 else scheme ++ ':' :: u1
  let u3 := if query = [] then u2 else u2 ++ '?' :: query
  if fragment = [] then u3 else u3 ++ '#' :: fragment

/-- The default tracking-parameter set of `remove_tracking_params`. -/
def default_tracking_params : List (List Char) :=
  ["utm_source".data, "utm_medium".data, "utm_campaign".data, "utm_term".data,
   "utm_content".data, "fbclid".data, "gclid".data, "msclkid".data,
   "ref".data, "source".data, "campaign".data]

/-- `remove_tracking_params` from `utils/url.py` (the `tracking_params
is None` default is `default_tracking_params`). -/
def remove_tracking_params (tracking_params : List (List Char)) (url : String) :
    String :=
  match pyUrlparse url.data with
  | (scheme, netloc, path, query, fragment) =>
    let query_params := parse_qs query
    let filtered_params := query_params.filter (fun kv => ¬ kv.1 ∈ tracking_params)
    let query_string := if filtered_params = [] then [] else urlencodeDoseq filtered_params
    ⟨pyUrlunparse scheme netloc path query_string fragment⟩

/-- Characters that `quote_plus` leaves unchanged; the round-trip
theorems restrict query names and values to these. -/
def qsChar (c : Char) : Bool :=
  c.isAlphanum || c = '-' || c = '_' || c = '.' || c = '~'

/-- `k1=v1&k2=v2&...` -/
def encodeQ (kvs : List (List Char × List Char)) : List Char :=
  joinWith ['&'] (kvs.map (fun kv => kv.1 ++ '=' :: kv.2))

/-- A `scheme://netloc/path?query#fragment` URL assembled from
components (query and fragment parts omitted when empty), used to state
the claims about `remove_tracking_params`. -/
def assembleUrl (scheme netloc path : List Char)
    (kvs : List (List Char × List Char)) (frag : List Char) : String :=
  ⟨scheme ++ ':' :: '/' :: '/' :: (netloc ++ path ++
    (if kvs = [] then [] else '?' :: encodeQ kvs) ++
    (if frag = [] then [] else '#' :: frag))⟩

/-! ### Parsing lemmas -/

theorem findSSlash_scheme (scheme : List Char) (rest : List Char)
    (h : ':' ∉ scheme) :
    findSSlash (scheme ++ ':' :: '/' :: '/' :: rest) = some (scheme, rest) := by
  induction scheme with
  | nil => simp [findSSlash, List.isPrefixOf]
  | cons c cs ih =>
    have hc : ¬ c = ':' := fun hc => h (hc ▸ List.mem_cons_self c cs)
    have hcs : ':' ∉ cs := fun hm => h (List.mem_cons_of_mem c hm)
    simp only [List.cons_append, findSSlash, hc, false_and, if_false, List.append_eq,
      ih hcs]

theorem takeWhile_append_all {p : Char → Bool} (a b : List Char)
    (ha : ∀ c ∈ a, p c = true)
    (hb : b = [] ∨ ∃ h t, b = h :: t ∧ p h = false) :
    (a ++ b).takeWhile p = a ∧ (a ++ b).dropWhile p = b := by
  induction a with
  | nil =>
    rcases hb with rfl | ⟨h, t, rfl, hh⟩
    · simp
    · simp [List.takeWhile, List.dropWhile, hh]
  | cons c cs ih =>
    have hc := ha c (List.mem_cons_self c cs)
    have hcs : ∀ x ∈ cs, p x = true := fun x hx => ha x (List.mem_cons_of_mem c hx)
    rcases ih hcs with ⟨h1, h2⟩
    constructor
    · simp [List.takeWhile, hc, h1]
    · simp [List.dropWhile, hc, h2]

theorem splitAtCharOpt_no (c : Char) (x : List Char) (h : c ∉ x) :
    splitAtCharOpt c x = (x, none) := by
  induction x with
  | nil => rfl
  | cons a rest ih =>
    have ha : ¬ a = c := fun hc => h (hc ▸ List.mem_cons_self a rest)
    have hr : c ∉ rest := fun hm => h (List.mem_cons_of_mem a hm)
    simp [splitAtCharOpt, ha, ih hr]

theorem splitAtCharOpt_mid (c : Char) (x y : List Char) (h : c ∉ x) :
    splitAtCharOpt c (x ++ c :: y) = (x, some y) := by
  induction x with
  | nil => simp [splitAtCharOpt]
  | cons a rest ih =>
    have ha : ¬ a = c := fun hc => h (hc ▸ List.mem_cons_self a rest)
    have hr : c ∉ rest := fun hm => h (List.mem_cons_of_mem a hm)
    simp [splitAtCharOpt, ha, ih hr]

theorem splitOnChar_joinWith (sep : Char) (segs : List (List Char))
    (hne : segs ≠ []) (hall : ∀ s ∈ segs, sep ∉ s) :
    splitOnChar sep (joinWith [sep] segs) = segs := by
  induction segs with
  | nil => exact absurd rfl hne
  | cons s rest ih =>
    cases rest with
    | nil =>
      simp only [joinWith]
      exact splitOnChar_sep_free s sep
        (containsSub_single_of_not_mem (hall s (List.mem_cons_self s [])))
    | cons s2 rest2 =>
      have hs : sep ∉ s := hall s (List.mem_cons_self s _)
      have hrest : ∀ x ∈ s2 :: rest2, sep ∉ x := fun x hx =>
        hall x (List.mem_cons_of_mem s hx)
      have hjoin : joinWith [sep] (s :: s2 :: rest2) =
          s ++ sep :: joinWith [sep] (s2 :: rest2) := by
        simp [joinWith]
      rw [hjoin, splitOnChar_append_sep s sep _ (containsSub_single_of_not_mem hs),
        ih (by simp) hrest]

theorem mem_joinWith {c : Char} {sep : List Char} :
    ∀ segs : List (List Char), c ∈ joinWith sep segs →
      c ∈ sep ∨ ∃ s ∈ segs, c ∈ s := by
  intro segs
  induction segs with
  | nil => intro h; simp [joinWith] at h
  | cons s rest ih =>
    cases rest with
    | nil =>
      intro h
      simp only [joinWith] at h
      exact Or.inr ⟨s, by simp, h⟩
    | cons s2 rest2 =>
      intro h
      simp only [joinWith] at h
      rcases List.mem_append.mp h with h1 | h2
      · rcases List.mem_append.mp h1 with hs | hsep
        · exact Or.inr ⟨s, by simp, hs⟩
        · exact Or.inl hsep
      · rcases ih h2 with hsep | ⟨t, ht, hc⟩
        · exact Or.inl hsep
        · exact Or.inr ⟨t, List.mem_cons_of_mem s ht, hc⟩

theorem mem_encodeQ {c : Char} {kvs : List (List Char × List Char)}
    (h : c ∈ encodeQ kvs) :
    c = '&' ∨ c = '=' ∨ ∃ kv ∈ kvs, c ∈ kv.1 ∨ c ∈ kv.2 := by
  rcases mem_joinWith _ h with hsep | ⟨s, hs, hc⟩
  · exact Or.inl (by simpa using hsep)
  · rcases List.mem_map.mp hs with ⟨kv, hkv, rfl⟩
    rcases List.mem_append.mp hc with h1 | h2
    · exact Or.inr (Or.inr ⟨kv, hkv, Or.inl h1⟩)
    · rcases List.mem_cons.mp h2 with rfl | h3
      · exact Or.inr (Or.inl rfl)
      · exact Or.inr (Or.inr ⟨kv, hkv, Or.inr h3⟩)

theorem filterMap_seg (kvs : List (List Char × List Char))
    (h : ∀ kv ∈ kvs, '=' ∉ kv.1) :
    (kvs.map (fun kv => kv.1 ++ '=' :: kv.2)).filterMap (fun seg =>
      match splitAtCharOpt '=' seg with
      | (k, some v) => if v = [] then none else some (k, v)
      | (_, none) => none) = kvs.filter (fun kv => ¬ kv.2 = []) := by
  induction kvs with
  | nil => rfl
  | cons kv rest ih =>
    have hk : '=' ∉ kv.1 := h kv (List.mem_cons_self kv rest)
    have hrest : ∀ x ∈ rest, '=' ∉ x.1 := fun x hx => h x (List.mem_cons_of_mem kv hx)
    simp only [List.map_cons, List.filterMap_cons, splitAtCharOpt_mid '=' kv.1 kv.2 hk,
      ih hrest]
    by_cases hv : kv.2 = []
    · simp [hv]
    · simp [hv]

theorem parse_qsl_encodeQ (kvs : List (List Char × List Char))
    (hne : kvs ≠ [])
    (h : ∀ kv ∈ kvs, '=' ∉ kv.1 ∧ '&' ∉ kv.1 ∧ '&' ∉ kv.2) :
    parse_qsl (encodeQ kvs) = kvs.filter (fun kv => ¬ kv.2 = []) := by
  have hsegs : splitOnChar '&' (encodeQ kvs) =
      kvs.map (fun kv => kv.1 ++ '=' :: kv.2) := by
    apply splitOnChar_joinWith
    · simpa using hne
    · intro s hs
      rcases List.mem_map.mp hs with ⟨kv, hkv, rfl⟩
      rcases h kv hkv with ⟨-, h1, h2⟩
      intro hmem
      rcases List.mem_append.mp hmem with hm | hm
      · exact h1 hm
      · rcases List.mem_cons.mp hm with hm | hm
        · exact absurd hm (by decide)
        · exact h2 hm
  rw [parse_qsl, hsegs, filterMap_seg kvs (fun kv hkv => (h kv hkv).1)]

theorem qsFold_distinct (pairs : List (List Char × List Char)) :
    ∀ acc : List (List Char × List (List Char)),
    (∀ p ∈ pairs, ∀ a ∈ acc, a.1 ≠ p.1) →
    pairs.Pairwise (fun a b => a.1 ≠ b.1) →
    qsFold pairs acc = acc ++ pairs.map (fun p => (p.1, [p.2])) := by
  induction pairs with
  | nil => intro acc _ _; simp [qsFold]
  | cons p rest ih =>
    intro acc hacc hpw
    have hins : qsInsert acc p.1 p.2 = acc ++ [(p.1, [p.2])] := by
      induction acc with
      | nil => rfl
      | cons a arest iha =>
        have hne : a.1 ≠ p.1 := hacc p (List.mem_cons_self p rest) a
          (List.mem_cons_self a arest)
        simp only [qsInsert, hne, if_false]
        rw [iha (fun q hq b hb => hacc q hq b (List.mem_cons_of_mem a hb))]
        simp
    simp only [qsFold, hins]
    rw [ih (acc ++ [(p.1, [p.2])]) ?hargs (List.Pairwise.of_cons hpw)]
    · simp
    case hargs =>
      intro q hq b hb
      rcases List.mem_append.mp hb with hm | hm
      · exact hacc q (List.mem_cons_of_mem p hq) b hm
      · rcases List.mem_cons.mp hm with rfl | hm
        · exact (List.pairwise_cons.mp hpw).1 q hq
        · exact absurd hm (List.not_mem_nil b)

theorem urlencodeDoseq_map (l : List (List Char × List Char)) :
    urlencodeDoseq (l.map (fun kv => (kv.1, [kv.2]))) = encodeQ l := by
  simp only [urlencodeDoseq, encodeQ, List.flatMap_map]
  congr 1
  induction l with
  | nil => rfl
  | cons kv rest ih =>
    simp only [List.flatMap_cons, List.map_cons, List.map_nil, List.singleton_append,
      List.nil_append, List.cons.injEq, true_and]
    simpa using ih

theorem qsChar_ne {c : Char} (hc : qsChar c = true) :
    c ≠ '&' ∧ c ≠ '=' ∧ c ≠ '?' ∧ c ≠ '#' := by
  refine ⟨?_, ?_, ?_, ?_⟩ <;> rintro rfl <;> exact absurd hc (by decide)

/-! ### C8 -/

/-- C8 counterexample: `parse_qs` drops blank-valued parameters
(`keep_blank_values=False`), so `remove_tracking_params` also removes
the non-tracking parameter `a` from `?a=&b=2` — it does not remove
*exactly* the parameters whose names are in the tracking set. -/
theorem remove_tracking_params_counterexample :
    ¬ "a".data ∈ default_tracking_params ∧
    remove_tracking_params default_tracking_params "https://x.com/p?a=&b=2" =
      "https://x.com/p?b=2" ∧
    remove_tracking_params default_tracking_params "https://x.com/p?a=&b=2" ≠
      "https://x.com/p?a=&b=2" := by
  refine ⟨by decide, by decide, by decide⟩

theorem pyUrlparse_parts (scheme netloc qf : List Char)
    (hs2 : ':' ∉ scheme)
    (hn2 : ∀ c ∈ netloc, ¬(c = '/' ∨ c = '?' ∨ c = '#'))
    (hb : qf = [] ∨ ∃ h t, qf = h :: t ∧ (h = '/' ∨ h = '?' ∨ h = '#')) :
    pyUrlparse (scheme ++ ':' :: '/' :: '/' :: (netloc ++ qf)) =
      (scheme, netloc, (splitAtCharOpt '?' (splitAtCharOpt '#' qf).1).1,
        ((splitAtCharOpt '?' (splitAtCharOpt '#' qf).1).2).getD [],
        ((splitAtCharOpt '#' qf).2).getD []) := by
  simp only [pyUrlparse, findSSlash_scheme _ _ hs2]
  have hb' : qf = [] ∨ ∃ h t, qf = h :: t ∧
      (fun c => decide (¬ (c = '/' ∨ c = '?' ∨ c = '#'))) h = false := by
    rcases hb with rfl | ⟨h, t, rfl, hh⟩
    · exact Or.inl rfl
    · refine Or.inr ⟨h, t, rfl, ?_⟩
      rcases hh with rfl | rfl | rfl <;> decide
  obtain ⟨htw, hdw⟩ := takeWhile_append_all netloc qf
    (fun c hc => decide_eq_true (hn2 c hc)) hb'
  rw [htw, hdw]

/-- C8 (amended): on a parseable `scheme://netloc/path?query#fragment`
URL whose query parameters have pairwise-distinct names and quote-free
characters, `remove_tracking_params` removes exactly the parameters
whose names are in the configured tracking set *or whose value is
empty*, and rebuilds the query string preserving the order of the
remaining parameters as they appeared in the input (the parse-failure
clause is vacuous here: `urlparse` accepts every string on this
domain). -/
theorem remove_tracking_params_spec :
    ∀ (tracking : List (List Char)) (scheme netloc path : List Char)
      (kvs : List (List Char × List Char)) (frag : List Char),
      scheme ≠ [] → ':' ∉ scheme →
      netloc ≠ [] → (∀ c ∈ netloc, ¬(c = '/' ∨ c = '?' ∨ c = '#')) →
      (path = [] ∨ ∃ t, path = '/' :: t) → '?' ∉ path → '#' ∉ path →
      (∀ kv ∈ kvs, (∀ c ∈ kv.1, qsChar c = true) ∧ (∀ c ∈ kv.2, qsChar c = true)) →
      kvs.Pairwise (fun a b => a.1 ≠ b.1) →
      remove_tracking_params tracking (assembleUrl scheme netloc path kvs frag) =
        assembleUrl scheme netloc path
          (kvs.filter (fun kv => ¬ kv.2 = [] ∧ ¬ kv.1 ∈ tracking)) frag := by
  intro tracking scheme netloc path kvs frag hs hs2 hn hn2 hp hpq hpf hq hpw
  have hqnotq : '?' ∉ encodeQ kvs := by
    intro hmem
    rcases mem_encodeQ hmem with h1 | h1 | ⟨kv, hkv, hc⟩
    · exact absurd h1 (by decide)
    · exact absurd h1 (by decide)
    · rcases hc with hc | hc
      · exact (qsChar_ne ((hq kv hkv).1 _ hc)).2.2.1 rfl
      · exact (qsChar_ne ((hq kv hkv).2 _ hc)).2.2.1 rfl
  have hqnotf : '#' ∉ encodeQ kvs := by
    intro hmem
    rcases mem_encodeQ hmem with h1 | h1 | ⟨kv, hkv, hc⟩
    · exact absurd h1 (by decide)
    · exact absurd h1 (by decide)
    · rcases hc with hc | hc
      · exact (qsChar_ne ((hq kv hkv).1 _ hc)).2.2.2 rfl
      · exact (qsChar_ne ((hq kv hkv).2 _ hc)).2.2.2 rfl
  have hqparse : parse_qs (encodeQ kvs) =
      (kvs.filter (fun kv => ¬ kv.2 = [])).map (fun p => (p.1, [p.2])) ∨ kvs = [] := by
    by_cases hkv : kvs = []
    · exact Or.inr hkv
    · refine Or.inl ?_
      have hqsl : parse_qsl (encodeQ kvs) = kvs.filter (fun kv => ¬ kv.2 = []) :=
        parse_qsl_encodeQ kvs hkv (fun kv hkv' =>
          ⟨fun hm => (qsChar_ne ((hq kv hkv').1 _ hm)).2.1 rfl,
           fun hm => (qsChar_ne ((hq kv hkv').1 _ hm)).1 rfl,
           fun hm => (qsChar_ne ((hq kv hkv').2 _ hm)).1 rfl⟩)
      rw [parse_qs, hqsl]
      exact qsFold_distinct _ []
        (by intro p _ a ha; exact absurd ha (List.not_mem_nil a)) (hpw.filter _)
  have hfm : ∀ kvs' : List (List Char × List Char),
      ((kvs'.filter (fun kv => ¬ kv.2 = [])).map
          (fun p => (p.1, [p.2]))).filter (fun kv => ¬ kv.1 ∈ tracking) =
        (kvs'.filter (fun kv => ¬ kv.2 = [] ∧ ¬ kv.1 ∈ tracking)).map
          (fun p => (p.1, [p.2])) := by
    intro kvs'
    induction kvs' with
    | nil => rfl
    | cons kv rest ih =>
      by_cases hv : kv.2 = []
      · simpa [hv] using ih
      · by_cases ht : kv.1 ∈ tracking
        · simpa [hv, ht] using ih
        · simpa [hv, ht] using ih
  have hb : path ++ ((if kvs = [] then [] else '?' :: encodeQ kvs) ++
        (if frag = [] then [] else '#' :: frag)) = [] ∨
      ∃ h t, path ++ ((if kvs = [] then [] else '?' :: encodeQ kvs) ++
        (if frag = [] then [] else '#' :: frag)) = h :: t ∧
        (h = '/' ∨ h = '?' ∨ h = '#') := by
    rcases hp with rfl | ⟨t, rfl⟩
    · by_cases hkv : kvs = []
      · by_cases hf : frag = []
        · left; simp [hkv, hf]
        · rcases List.exists_cons_of_ne_nil hf with ⟨fh, ft, rfl⟩
          right
          refine ⟨'#', fh :: ft, ?_, Or.inr (Or.inr rfl)⟩
          simp [hkv]
      · right
        refine ⟨'?', encodeQ kvs ++ (if frag = [] then [] else '#' :: frag), ?_,
          Or.inr (Or.inl rfl)⟩
        simp [hkv]
    · right
      exact ⟨'/', t ++ ((if kvs = [] then [] else '?' :: encodeQ kvs) ++
        (if frag = [] then [] else '#' :: frag)), by simp, Or.inl rfl⟩
  have hurl : (assembleUrl scheme netloc path kvs frag).data =
      scheme ++ ':' :: '/' :: '/' :: (netloc ++
        (path ++ ((if kvs = [] then [] else '?' :: encodeQ kvs) ++
          (if frag = [] then [] else '#' :: frag)))) := by
    show scheme ++ ':' :: '/' :: '/' :: (netloc ++ path ++ _ ++ _) = _
    simp [List.append_assoc]
  have hsplitf : splitAtCharOpt '#'
      (path ++ ((if kvs = [] then [] else '?' :: encodeQ kvs) ++
        (if frag = [] then [] else '#' :: frag))) =
      (path ++ (if kvs = [] then [] else '?' :: encodeQ kvs),
        if frag = [] then none else some frag) := by
    have hno : '#' ∉ path ++ (if kvs = [] then [] else '?' :: encodeQ kvs) := by
      intro hmem
      rcases List.mem_append.mp hmem with hm | hm
      · exact hpf hm
      · by_cases hkv : kvs = []
        · simp [hkv] at hm
        · simp only [hkv, if_false] at hm
          rcases List.mem_cons.mp hm with hm | hm
          · exact absurd hm (by decide)
          · exact hqnotf hm
    by_cases hf : frag = []
    · subst hf
      rw [show (if ([] : List Char) = [] then ([] : List Char)
            else '#' :: ([] : List Char)) = [] from rfl,
        List.append_nil, splitAtCharOpt_no '#' _ hno]
      rfl
    · simp only [hf, if_false]
      rw [show path ++ ((if kvs = [] then [] else '?' :: encodeQ kvs) ++ '#' :: frag) =
        (path ++ (if kvs = [] then [] else '?' :: encodeQ kvs)) ++ '#' :: frag
        from by simp [List.append_assoc]]
      rw [splitAtCharOpt_mid '#' _ _ hno]
  have hsplitq : splitAtCharOpt '?'
      (path ++ (if kvs = [] then [] else '?' :: encodeQ kvs)) =
      (path, if kvs = [] then none else some (encodeQ kvs)) := by
    by_cases hkv : kvs = []
    · subst hkv
      rw [show (if ([] : List (List Char × List Char)) = [] then ([] : List Char)
            else '?' :: encodeQ []) = [] from rfl,
        List.append_nil, splitAtCharOpt_no '?' _ hpq]
      rfl
    · simp only [hkv, if_false]
      rw [splitAtCharOpt_mid '?' _ _ hpq]
  have hparse : pyUrlparse (assembleUrl scheme netloc path kvs frag).data =
      (scheme, netloc, path, (if kvs = [] then [] else encodeQ kvs),
        (if frag = [] then [] else frag)) := by
    rw [hurl, pyUrlparse_parts scheme netloc _ hs2 hn2 hb, hsplitf, hsplitq]
    by_cases hkv : kvs = [] <;> by_cases hf : frag = [] <;> simp [hkv, hf]
  rw [show (if frag = [] then [] else frag) = frag from by
    by_cases hf : frag = [] <;> simp [hf]] at hparse
  simp only [remove_tracking_params, hparse]
  by_cases hkv : kvs = []
  · subst hkv
    rw [show (if ([] : List (List Char × List Char)) = [] then ([] : List Char)
          else encodeQ []) = [] from rfl]
    rw [show parse_qs ([] : List Char) = [] from rfl, List.filter_nil]
    rw [show (if ([] : List (List Char × List (List Char))) = [] then ([] : List Char)
          else urlencodeDoseq []) = [] from rfl]
    apply congrArg String.mk
    by_cases hf : frag = [] <;>
      simp [pyUrlunparse, assembleUrl, hn, hs, hf, List.append_assoc]
  · rcases hqparse with hqparse | hc
    swap
    · exact absurd hc hkv
    rw [show (if kvs = [] then [] else encodeQ kvs) = encodeQ kvs from by
      rw [if_neg hkv]]
    rw [hqparse, hfm kvs]
    set kept := kvs.filter (fun kv => ¬ kv.2 = [] ∧ ¬ kv.1 ∈ tracking) with hkept
    by_cases hkeptnil : kept = []
    · rw [hkeptnil]
      apply congrArg String.mk
      by_cases hf : frag = [] <;>
        simp [pyUrlunparse, assembleUrl, hn, hs, hf, hkeptnil, List.append_assoc]
    · have hmapnil : ¬ (kept.map (fun p => (p.1, [p.2]))) = [] := by
        simpa using hkeptnil
      rw [if_neg hmapnil, urlencodeDoseq_map]
      apply congrArg String.mk
      have hene : ¬ encodeQ kept = [] := by
        rcases List.exists_cons_of_ne_nil hkeptnil with ⟨kv0, rest, hrest⟩
        rw [hrest]
        cases rest <;> simp [encodeQ, joinWith]
      by_cases hf : frag = [] <;>
        simp [pyUrlunparse, assembleUrl, hn, hs, hf, hene, hkeptnil, List.append_assoc]

/-- Witness for C8 at a concrete input: `ref` (tracking) is removed,
`q` (non-tracking, non-blank) is kept, order preserved. -/
theorem remove_tracking_params_spec_witness :
    remove_tracking_params default_tracking_params
      (assembleUrl "https".data "x.com".data "/p".data
        [("q".data, "1".data), ("ref".data, "r".data), ("b".data, "2".data)] []) =
      assembleUrl "https".data "x.com".data "/p".data
        [("q".data, "1".data), ("b".data, "2".data)] [] := by
  have := remove_tracking_params_spec default_tracking_params
    "https".data "x.com".data "/p".data
    [("q".data, "1".data), ("ref".data, "r".data), ("b".data, "2".data)] []
    (by decide) (by decide) (by decide) (by decide)
    (Or.inr ⟨"p".data, by decide⟩) (by decide) (by decide)
    (by decide) (by decide)
  rw [this]
  rfl

/-! ## `utils/html.py` — HTML tree model

BeautifulSoup's parse tree is modelled by an explicit tree: an element
node carries its tag, its attribute list and its children; a text node
carries its string.  Python object identity of parse-tree nodes (used
by `element in navigation_elements` and the `set(...)` dedup) is
modelled by the node's *path* — the list of child indices from the
root — which is unique per node.  Serialisation (`str(element)`)
renders `<tag k="v">…</tag>` without entity escaping, adequate for the
length thresholds the code compares against.  Traversal order is
preorder = document order; `find_all` on an element covers strict
descendants only, which also matches `soup.find_all` since the
BeautifulSoup object itself is the `[document]` root. -/

inductive Node where
  | elem (tag : String) (attrs : List (String × String)) (children : List Node)
  | text (s : String)

mutual
def nodeSize : Node → Nat
  | .text _ => 1
  | .elem _ _ cs => 1 + nodeSizeList cs
def nodeSizeList : List Node → Nat
  | [] => 0
  | c :: rest => nodeSize c + nodeSizeList rest
end

mutual
def nodeTextParts : Node → List String
  | .text s => [s]
  | .elem _ _ cs => nodeTextPartsList cs
def nodeTextPartsList : List Node → List String
  | [] => []
  | c :: rest => nodeTextParts c ++ nodeTextPartsList rest
end

/-- BeautifulSoup `get_text(strip=True)`: the concatenation of each
descendant string stripped, empties skipped. -/
def getTextStrip (n : Node) : String :=
  ⟨(((nodeTextParts n).map (fun s => pyStripL s.data)).filter (· ≠ [])).flatten⟩

def renderAttrs : List (String × String) → List Char
  | [] => []
  | kv :: rest => ' ' :: kv.1.data ++ '=' :: '"' :: kv.2.data ++ '"' :: renderAttrs rest

mutual
def renderNode : Node → List Char
  | .text s => s.data
  | .elem tag attrs cs =>
    '<' :: tag.data ++ renderAttrs attrs ++ '>' :: renderChildren cs ++
      '<' :: '/' :: tag.data ++ ['>']
def renderChildren : List Node → List Char
  | [] => []
  | c :: rest => renderNode c ++ renderChildren rest
end

mutual
/-- All descendants of a node, each with its path, in document
(preorder) order.  The node itself is excluded, as with
`element.find_all`. -/
def descendantsFrom (path : List Nat) : Node → List (List Nat × Node)
  | .text _ => []
  | .elem _ _ cs => descChildren path 0 cs
def descChildren (path : List Nat) (i : Nat) : List Node → List (List Nat × Node)
  | [] => []
  | c :: rest =>
    (path ++ [i], c) :: (descendantsFrom (path ++ [i]) c ++ descChildren path (i + 1) rest)
end

/-- `element.find_all(predicate)`: matching strict descendants in
document order. -/
def findAllNode (p : Node → Bool) (n : Node) : List (List Nat × Node) :=
  (descendantsFrom [] n).filter (fun x => p x.2)

def tagOf : Node → Option String
  | .elem t _ _ => some t
  | .text _ => none

def attrOf (n : Node) (key : String) : Option String :=
  match n with
  | .elem _ attrs _ => (attrs.find? (fun kv => kv.1 == key)).map (·.2)
  | .text _ => none

/-- The multi-valued `class` attribute, whitespace-split as
BeautifulSoup stores it. -/
def classListOf (n : Node) : List String :=
  match attrOf n "class" with
  | some v => ((splitOnChar ' ' v.data).filter (· ≠ [])).map String.mk
  | none => []

def hasTag (name : String) (n : Node) : Bool :=
  match tagOf n with
  | some t => t == name
  | none => false

def hasTagIn (names : List String) (n : Node) : Bool :=
  match tagOf n with
  | some t => names.contains t
  | none => false

def hasHref (n : Node) : Bool := (attrOf n "href").isSome

def directChildren : Node → List Node
  | .elem _ _ cs => cs
  | .text _ => []

/-- Subtree at a path. -/
def subtreeAt : Node → List Nat → Option Node
  | n, [] => some n
  | .elem _ _ cs, i :: rest =>
    match cs[i]? with
    | some c => subtreeAt c rest
    | none => none
  | .text _, _ :: _ => none

/-- Tags of the ancestors of the node at `path` (nearest last), for
`element.parents`. -/
def ancestorTags (root : Node) : List Nat → List String
  | [] => []
  | i :: rest =>
    (match tagOf root with | some t => [t] | none => []) ++
    (match root with
     | .elem _ _ cs =>
       match cs[i]? with
       | some c => ancestorTags c rest
       | none => []
     | .text _ => [])

/-- The CSS selectors `extract_main_content` uses, by shape. -/
inductive Sel where
  | classTok (s : String)
  | idIs (s : String)
  | idContains (s : String)
  | classContains (s : String)
  | attrIs (k v : String)

def matchesSel (sel : Sel) (n : Node) : Bool :=
  match sel with
  | .classTok s => (classListOf n).contains s
  | .idIs s => attrOf n "id" == some s
  | .idContains s =>
    match attrOf n "id" with
    | some v => containsStr s v
    | none => false
  | .classContains s =>
    match attrOf n "class" with
    | some v => containsStr s v
    | none => false
  | .attrIs k v => attrOf n k == some v

def ad_selectors : List Sel :=
  [.classTok "ad", .classTok "ads", .classTok "advertisement", .classTok "banner",
   .idIs "ad", .idIs "ads", .idIs "advertisement",
   .idContains "google_ads", .classContains "banner", .idContains "banner",
   .classContains "advert", .idContains "advert"]

def comment_selectors : List Sel :=
  [.idIs "comments", .classTok "comments", .classTok "comment-section",
   .classTok "user-comments", .idContains "comment", .classContains "comment",
   .classTok "discussion", .idIs "discussion"]

mutual
/-- `tag.decompose()` applied to every element with one of the given
tag names (`soup(["script", "style", ...])`). -/
def stripTags (names : List String) : Node → Node
  | .text s => .text s
  | .elem t a cs => .elem t a (stripTagsList names cs)
/-- One child after decomposition: dropped entirely when its tag is in
`names`, otherwise kept with its own children stripped. -/
def stripTagsOpt (names : List String) : Node → List Node
  | .text s => [.text s]
  | .elem t a cs =>
    if names.contains t then [] else [.elem t a (stripTagsList names cs)]
def stripTagsList (names : List String) : List Node → List Node
  | [] => []
  | c :: rest => stripTagsOpt names c ++ stripTagsList names rest
end

/-! ## `extract_main_content` (`utils/html.py` lines 150-322)

Python floats are modelled by `ℚ`; the float literals `0.6`, `0.1`,
`0.2`, `0.01`, `0.3`, `0.15`, `0.5` and the divisions are exact in
both representations on the inputs below, and every conclusion drawn
is an inequality that holds for both.  `min` is Python's `min`, which
returns its first argument on ties. -/

def pyMinQ (a b : ℚ) : ℚ := if a ≤ b then a else b

/-- A scored content candidate `(element, score, name)`; the element is
kept with its path so that Python object identity is path identity. -/
structure Candidate where
  path : List Nat
  node : Node
  score : ℚ
  origin : String

def textLen (n : Node) : Nat := (getTextStrip n).length

def htmlLen (n : Node) : Nat := (renderNode n).length

/-- `soup.find("main")` candidate, score 100 (lines 202-204). -/
def mainCandidates (soup : Node) : List Candidate :=
  match (findAllNode (hasTag "main") soup).head? with
  | some m => [⟨m.1, m.2, 100, "main"⟩]
  | none => []

/-- `soup.find_all("article")` candidates, score
`90 + min(10, len(text)/1000)` (lines 206-210). -/
def articleCandidates (soup : Node) : List Candidate :=
  (findAllNode (hasTag "article") soup).map (fun a =>
    ⟨a.1, a.2, 90 + pyMinQ 10 ((textLen a.2 : ℚ) / 1000), "article"⟩)

/-- The fixed `(selector, score)` table of lines 213-225. -/
def content_selector_table : List (Sel × ℚ × String) :=
  [(.idIs "content", 80, "#content"), (.classTok "content", 75, ".content"),
   (.idIs "main", 70, "#main"), (.classTok "main", 65, ".main"),
   (.attrIs "role" "main", 60, "[role=main]"), (.classTok "post", 55, ".post"),
   (.classTok "entry", 50, ".entry"), (.classTok "blog-post", 50, ".blog-post"),
   (.classTok "page-content", 48, ".page-content"),
   (.classTok "site-content", 45, ".site-content"),
   (.classTok "markdown-body", 95, ".markdown-body")]

/-- Selector-table candidates: elements with fewer than 100 characters
of stripped text, or with a nav/header/footer ancestor, are skipped
(lines 226-235). -/
def selectorCandidates (soup : Node) : List Candidate :=
  content_selector_table.flatMap (fun st =>
    (findAllNode (matchesSel st.1) soup).filterMap (fun e =>
      if textLen e.2 < 100 then none
      else if (ancestorTags soup e.1).any
          (fun t => ["nav", "header", "footer"].contains t) then none
      else some ⟨e.1, e.2, st.2.1, st.2.2⟩))

/-- The ad/comment containers collected by `soup.select` over
`ad_selectors + comment_selectors` (lines 194-196). -/
def noiseElements (soup : Node) : List (List Nat × Node) :=
  (ad_selectors ++ comment_selectors).flatMap (fun sel => findAllNode (matchesSel sel) soup)

/-- The density-analysis pass (lines 239-281): containers of the five
listed tags, skipped when their stripped text is under 200 characters
or they are one of the nav/structural/noise elements or their
serialisation is under 500 characters; otherwise scored by the
mode-dependent weighted formula and normalised to `min(40, score/50)`. -/
def densityCandidates (soup : Node) (content_priority : String) : List Candidate :=
  let navigation_elements := findAllNode (hasTag "nav") soup
  let structural_elements := findAllNode (hasTagIn ["header", "footer"]) soup
  let noise_elements := noiseElements soup
  ["div", "section", "main", "td", "table"].flatMap (fun tag_name =>
    (findAllNode (hasTag tag_name) soup).filterMap (fun e =>
      if textLen e.2 < 200 ∨ e.1 ∈ navigation_elements.map (·.1) ∨
          e.1 ∈ structural_elements.map (·.1) ∨ e.1 ∈ noise_elements.map (·.1) then
        none
      else
        let text_length : ℚ := (textLen e.2 : ℚ)
        let link_count := (findAllNode (hasTag "a") e.2).length
        let element_html_length := htmlLen e.2
        if element_html_length < 500 then none
        else
          let text_density : ℚ :=
            if 0 < element_html_length then text_length / (element_html_length : ℚ) else 0
          let text_to_link_ratio : ℚ :=
            if 0 < link_count then text_length / (link_count : ℚ)
            else text_length * (5 / 10)
          let score : ℚ :=
            if content_priority = "largest" then
              text_length * (6 / 10) + text_density * 20 + text_to_link_ratio * (1 / 10)
            else if content_priority = "dense" then
              text_density * 50 + text_to_link_ratio * (2 / 10) + text_length * (1 / 100)
            else
              text_length * (3 / 10) + text_density * 30 + text_to_link_ratio * (15 / 100)
          some ⟨e.1, e.2, pyMinQ 40 (score / 50), tag_name ++ "-heuristic"⟩))

/-- The selection half of `extract_main_content`: which located element
the function picks as the main content (lines 164-309).  Returns the
chosen element with its path in the stripped tree; `none` stands for
the candidate-free fallback to `soup.body or soup` (lines 301-309),
which only re-derives the body after decomposing nav/structural/noise
elements and which no claim exercises.  The trailing re-parse of lines
311-322 serialises the chosen region and is not part of selection. -/
def extract_main_content_selection (html : Node) (content_priority : String) :
    Option (List Nat × Node) :=
  let soup := stripTags ["script", "style", "meta", "noscript", "iframe"] html
  let main_element := (findAllNode (hasTag "main") soup).head?
  let article_elements := findAllNode (hasTag "article") soup
  let base := mainCandidates soup ++ articleCandidates soup ++ selectorCandidates soup
  let content_candidates :=
    if content_priority = "largest" ∨ content_priority = "dense" ∨ base.length < 3 then
      base ++ densityCandidates soup content_priority
    else base
  if content_priority = "main" ∧ main_element.isSome then
    main_element
  else if content_priority = "article" ∧ article_elements.isEmpty = false then
    match article_elements with
    | [] => none
    | a :: rest =>
      some (rest.foldl (fun best x => if textLen best.2 < textLen x.2 then x else best) a)
  else
    match content_candidates with
    | [] => none
    | c :: cs =>
      let best := cs.foldl (fun best x => if best.score < x.score then x else best) c
      some (best.path, best.node)

lemma pyMinQ_le_left (a b : ℚ) : pyMinQ a b ≤ a := by
  unfold pyMinQ
  split
  · exact le_refl a
  · next h => exact le_of_not_le h

lemma pyMinQ_nonneg {a b : ℚ} (ha : 0 ≤ a) (hb : 0 ≤ b) : 0 ≤ pyMinQ a b := by
  unfold pyMinQ
  split <;> assumption

/-- Every density-pass candidate's score has the shape
`min(40, score/50)`, hence is at most 40. -/
lemma densityCandidates_score_le (soup : Node) (p : String) (c : Candidate)
    (h : c ∈ densityCandidates soup p) : c.score ≤ 40 := by
  unfold densityCandidates at h
  rw [List.mem_flatMap] at h
  obtain ⟨t, -, h⟩ := h
  rw [List.mem_filterMap] at h
  obtain ⟨e, -, hc⟩ := h
  split at hc
  · exact Option.noConfusion hc
  · simp only [] at hc
    by_cases h5 : htmlLen e.2 < 500
    · rw [if_pos h5] at hc
      exact Option.noConfusion hc
    · rw [if_neg h5] at hc
      injection hc with h2
      subst h2
      exact pyMinQ_le_left _ _

lemma mainCandidates_score_eq (soup : Node) (c : Candidate)
    (h : c ∈ mainCandidates soup) : c.score = 100 := by
  unfold mainCandidates at h
  split at h
  · rw [List.mem_singleton] at h
    subst h
    rfl
  · exact absurd h (List.not_mem_nil c)

lemma articleCandidates_score_ge (soup : Node) (c : Candidate)
    (h : c ∈ articleCandidates soup) : 90 ≤ c.score := by
  unfold articleCandidates at h
  rw [List.mem_map] at h
  obtain ⟨a, -, rfl⟩ := h
  have h0 : (0 : ℚ) ≤ pyMinQ 10 ((textLen a.2 : ℚ) / 1000) :=
    pyMinQ_nonneg (by norm_num) (by positivity)
  dsimp only
  linarith

lemma articleCandidates_score_le (soup : Node) (c : Candidate)
    (h : c ∈ articleCandidates soup) : c.score ≤ 100 := by
  unfold articleCandidates at h
  rw [List.mem_map] at h
  obtain ⟨a, -, rfl⟩ := h
  have h0 : pyMinQ 10 ((textLen a.2 : ℚ) / 1000) ≤ 10 := pyMinQ_le_left _ _
  dsimp only
  linarith

lemma selectorCandidates_score_le (soup : Node) (c : Candidate)
    (h : c ∈ selectorCandidates soup) : c.score ≤ 95 := by
  unfold selectorCandidates at h
  rw [List.mem_flatMap] at h
  obtain ⟨st, hst, h⟩ := h
  rw [List.mem_filterMap] at h
  obtain ⟨e, -, hc⟩ := h
  split at hc
  · exact Option.noConfusion hc
  · split at hc
    · exact Option.noConfusion hc
    · injection hc with h2
      subst h2
      show st.2.1 ≤ 95
      fin_cases hst <;> norm_num

/-- `list.sort(reverse=True)` is stable and `[0]` is taken, so the
selected candidate is the first one whose score no later candidate
strictly exceeds. -/
lemma foldl_best_keep (c : Candidate) :
    ∀ cs : List Candidate, (∀ x ∈ cs, x.score ≤ c.score) →
      cs.foldl (fun best x => if best.score < x.score then x else best) c = c
  | [], _ => rfl
  | y :: ys, h => by
    simp only [List.foldl_cons]
    rw [if_neg (not_lt.mpr (h y (List.mem_cons_self y ys)))]
    exact foldl_best_keep c ys (fun x hx => h x (List.mem_cons_of_mem y hx))

/-- The concrete markup of the claim: a `<main>` region whose text is
`x` (500 characters) and a `<div class="content">` whose text is `y`
(50 characters). -/
def exampleDoc (x y : String) : Node :=
  .elem "[document]" []
    [.elem "html" []
      [.elem "body" []
        [.elem "main" [] [.text x],
         .elem "div" [("class", "content")] [.text y]]]]

/-- **C5.** In `extract_main_content`, every candidate produced by the
density-analysis pass has score at most 40, strictly below the fixed
score 100 of a `<main>` candidate and the at-least-90 score of every
`<article>` candidate; consequently, on markup containing a `<main>`
with 500 characters of (stripped) text and a `<div class="content">`
with 50 characters, priority mode `auto` selects the `<main>` region. -/
theorem heuristic_never_outranks_main :
    (∀ soup priority c, c ∈ densityCandidates soup priority → c.score ≤ 40) ∧
    (∀ soup c, c ∈ mainCandidates soup → c.score = 100) ∧
    (∀ soup c, c ∈ articleCandidates soup → 90 ≤ c.score) ∧
    (∀ soup priority c a, c ∈ densityCandidates soup priority →
      a ∈ mainCandidates soup ∨ a ∈ articleCandidates soup → c.score < a.score) ∧
    (∀ x y : String, x.data.length = 500 → pyStripL x.data = x.data →
      y.data.length = 50 → pyStripL y.data = y.data →
      extract_main_content_selection (exampleDoc x y) "auto" =
        some ([0, 0, 0], Node.elem "main" [] [Node.text x])) := by
  refine ⟨densityCandidates_score_le, mainCandidates_score_eq, articleCandidates_score_ge,
    ?_, ?_⟩
  · intro soup priority c a hc ha
    have h40 := densityCandidates_score_le soup priority c hc
    rcases ha with ha | ha
    · have := mainCandidates_score_eq soup a ha
      linarith
    · have := articleCandidates_score_ge soup a ha
      linarith
  · intro x y hx hxs hy hys
    have hyne : y.data ≠ [] := by
      intro h0
      rw [h0] at hy
      exact absurd hy (by decide)
    have hty : textLen (Node.elem "div" [("class", "content")] [Node.text y]) = 50 := by
      simp [textLen, getTextStrip, String.length, nodeTextParts, nodeTextPartsList,
        hys, hyne, hy]
    have e01 : findAllNode (matchesSel (Sel.idIs "content")) (exampleDoc x y) = [] := rfl
    have e02 : findAllNode (matchesSel (Sel.classTok "content")) (exampleDoc x y) =
        [([0, 0, 1], Node.elem "div" [("class", "content")] [Node.text y])] := rfl
    have e03 : findAllNode (matchesSel (Sel.idIs "main")) (exampleDoc x y) = [] := rfl
    have e04 : findAllNode (matchesSel (Sel.classTok "main")) (exampleDoc x y) = [] := rfl
    have e05 : findAllNode (matchesSel (Sel.attrIs "role" "main")) (exampleDoc x y) = [] := rfl
    have e06 : findAllNode (matchesSel (Sel.classTok "post")) (exampleDoc x y) = [] := rfl
    have e07 : findAllNode (matchesSel (Sel.classTok "entry")) (exampleDoc x y) = [] := rfl
    have e08 : findAllNode (matchesSel (Sel.classTok "blog-post")) (exampleDoc x y) = [] := rfl
    have e09 : findAllNode (matchesSel (Sel.classTok "page-content")) (exampleDoc x y) = [] := rfl
    have e10 : findAllNode (matchesSel (Sel.classTok "site-content")) (exampleDoc x y) = [] := rfl
    have e11 : findAllNode (matchesSel (Sel.classTok "markdown-body")) (exampleDoc x y) = [] := rfl
    have hselc : selectorCandidates (exampleDoc x y) = [] := by
      simp only [selectorCandidates, content_selector_table, List.flatMap_cons,
        List.flatMap_nil, e01, e02, e03, e04, e05, e06, e07, e08, e09, e10, e11,
        List.filterMap_nil, List.filterMap_cons, List.append_nil, List.nil_append, hty]
      rfl
    have hmainc : mainCandidates (exampleDoc x y) =
        [⟨[0, 0, 0], Node.elem "main" [] [Node.text x], (100 : ℚ), "main"⟩] := rfl
    have hartc : articleCandidates (exampleDoc x y) = [] := rfl
    have hart : findAllNode (hasTag "article") (exampleDoc x y) = [] := rfl
    have hmainel : (findAllNode (hasTag "main") (exampleDoc x y)).head? =
        some (([0, 0, 0] : List Nat), Node.elem "main" [] [Node.text x]) := rfl
    have hsoup : stripTags ["script", "style", "meta", "noscript", "iframe"]
        (exampleDoc x y) = exampleDoc x y := rfl
    have hne1 : ("auto" : String) ≠ "main" := by decide
    have hne2 : ("auto" : String) ≠ "article" := by decide
    have hbound : ∀ z ∈ densityCandidates (exampleDoc x y) "auto",
        z.score ≤ (⟨([0, 0, 0] : List Nat), Node.elem "main" [] [Node.text x],
          (100 : ℚ), "main"⟩ : Candidate).score := by
      intro z hz
      have h40 := densityCandidates_score_le _ _ _ hz
      show z.score ≤ 100
      linarith
    unfold extract_main_content_selection
    rw [hsoup]
    simp only [hmainel, hart, hmainc, hartc, hselc, List.nil_append, List.append_nil,
      List.singleton_append, List.cons_append, Option.isSome_some, List.isEmpty_nil,
      List.length_cons, List.length_nil]
    rw [if_neg (fun hcon => hne1 hcon.1), if_neg (fun hcon => hne2 hcon.1)]
    rw [if_pos (Or.inr (Or.inr (by norm_num)))]
    simp only []
    rw [foldl_best_keep _ _ hbound]

lemma dropWhile_replicate_false (p : Char → Bool) (n : Nat) (c : Char) (h : p c = false) :
    List.dropWhile p (List.replicate n c) = List.replicate n c := by
  cases n with
  | zero => rfl
  | succ m => simp [List.replicate_succ, List.dropWhile_cons, h]

lemma pyStripL_replicate (n : Nat) (c : Char) (h : isWS c = false) :
    pyStripL (List.replicate n c) = List.replicate n c := by
  unfold pyStripL
  rw [dropWhile_replicate_false _ _ _ h, List.reverse_replicate,
    dropWhile_replicate_false _ _ _ h, List.reverse_replicate]

/-- Witness for C5: a `<main>` holding 500 `x` characters and a
`<div class="content">` holding 50 `y` characters; `auto` picks the
`<main>` element. -/
theorem heuristic_never_outranks_main_witness :
    ((⟨List.replicate 500 'x'⟩ : String).data.length = 500 ∧
      pyStripL (⟨List.replicate 500 'x'⟩ : String).data = (⟨List.replicate 500 'x'⟩ : String).data ∧
      (⟨List.replicate 50 'y'⟩ : String).data.length = 50 ∧
      pyStripL (⟨List.replicate 50 'y'⟩ : String).data = (⟨List.replicate 50 'y'⟩ : String).data) ∧
    extract_main_content_selection
        (exampleDoc ⟨List.replicate 500 'x'⟩ ⟨List.replicate 50 'y'⟩) "auto" =
      some ([0, 0, 0], Node.elem "main" [] [Node.text ⟨List.replicate 500 'x'⟩]) := by
  have h1 : (⟨List.replicate 500 'x'⟩ : String).data.length = 500 := by
    show (List.replicate 500 'x').length = 500
    rw [List.length_replicate]
  have h2 : pyStripL (⟨List.replicate 500 'x'⟩ : String).data =
      (⟨List.replicate 500 'x'⟩ : String).data := pyStripL_replicate 500 'x' rfl
  have h3 : (⟨List.replicate 50 'y'⟩ : String).data.length = 50 := by
    show (List.replicate 50 'y').length = 50
    rw [List.length_replicate]
  have h4 : pyStripL (⟨List.replicate 50 'y'⟩ : String).data =
      (⟨List.replicate 50 'y'⟩ : String).data := pyStripL_replicate 50 'y' rfl
  exact ⟨⟨h1, h2, h3, h4⟩,
    heuristic_never_outranks_main.2.2.2.2 _ _ h1 h2 h3 h4⟩

/-! ## `extract_navigation` (`utils/html.py` lines 465-676)

The navigation item/section dictionaries become inductive values.  The
Python `set(...)` over the three candidate lists has unspecified
iteration order; it is modelled as a first-occurrence dedup by node
path (path = object identity), which agrees with the source whenever
at most one candidate survives — the only situation the claims
exercise. -/

inductive NavItem where
  | link (href text : String) (is_active : Bool) (level : Nat)
  | category (text : String) (level : Nat)
deriving DecidableEq

structure NavSection where
  title : Option String
  element_type : String
  classes : List String
  items : List NavItem
deriving DecidableEq

def nav_classes : List String :=
  ["menu", "navigation", "nav", "navbar", "sidebar", "toc", "table-of-contents"]

/-- The `class_=lambda c: c and cls in c.lower()` filter, applied to
each class token of the element. -/
def classNavPred (cls : String) (n : Node) : Bool :=
  (classListOf n).any (fun t => containsSub cls.data (pyLowerL t.data))

def active_classes : List String := ["active", "current", "selected", "highlight"]

/-- `_has_active_marker` (lines 614-634): an active class (or its
`-item` variant) occurring as a substring of the space-joined class
list, or a truthy `aria-current` attribute. -/
def has_active_marker (n : Node) : Bool :=
  (active_classes.any (fun cls =>
    containsSub cls.data (joinWith [' '] ((classListOf n).map String.data)) ||
    containsSub (cls.data ++ "-item".data)
      (joinWith [' '] ((classListOf n).map String.data)))) ||
  (match attrOf n "aria-current" with
   | some v => !v.data.isEmpty
   | none => false)

def isHrefAnchor (n : Node) : Bool := hasTag "a" n && hasHref n

/-- One link dictionary (`href`/`text`/`is_active`/`level`). -/
def mkLinkItem (level : Nat) (link : Node) : NavItem :=
  .link ((attrOf link "href").getD "") (getTextStrip link) (has_active_marker link) level

/-- `_process_list_item` (lines 550-611).  The source recursion always
descends into a strict subtree (a nested list's `<li>` descendants),
so its depth is bounded by the subtree size; the fuel argument, set to
`nodeSize` at every top-level call, therefore never cuts a branch. -/
def process_list_item : Nat → Node → Nat → List NavItem
  | 0, _, _ => []
  | fuel + 1, li, level =>
    let links := (directChildren li).filter isHrefAnchor
    let direct_items := links.map (mkLinkItem level)
    let deeper_items :=
      if links.isEmpty then
        match (findAllNode isHrefAnchor li).head? with
        | some l => [mkLinkItem level l.2]
        | none => []
      else []
    let nested_items := ((directChildren li).filter (hasTagIn ["ul", "ol"])).flatMap
      (fun nl => (findAllNode (hasTag "li") nl).flatMap
        (fun nli => process_list_item fuel nli.2 (level + 1)))
    let details_items := ((directChildren li).filter (hasTag "details")).flatMap
      (fun d =>
        (match (findAllNode (hasTag "summary") d).head? with
         | some s => [NavItem.category (getTextStrip s.2) level]
         | none => []) ++
        (findAllNode (hasTagIn ["ul", "ol"]) d).flatMap
          (fun dl => (findAllNode (hasTag "li") dl.2).flatMap
            (fun dli => process_list_item fuel dli.2 (level + 1))))
    direct_items ++ deeper_items ++ nested_items ++ details_items

/-- `_extract_hierarchical_navigation` (lines 520-547): direct anchor
children at level 0, then every `<li>` descendant processed. -/
def extract_hierarchical_navigation (el : Node) : List NavItem :=
  ((directChildren el).filter isHrefAnchor).map (mkLinkItem 0) ++
    (findAllNode (hasTag "li") el).flatMap
      (fun li => process_list_item (nodeSize li.2) li.2 0)

def headingTags : List String := ["h1", "h2", "h3", "h4", "h5", "h6"]

def title_classes : List String := ["title", "heading", "header", "nav-title"]

/-- Python `str.title()` on ASCII: a letter is uppercased after a
non-letter and lowercased otherwise. -/
def pyTitleL : List Char → Bool → List Char
  | [], _ => []
  | c :: rest, prevAlpha =>
    (if c.isAlpha then (if prevAlpha then c.toLower else c.toUpper) else c) ::
      pyTitleL rest c.isAlpha

def pyTitleCase (s : String) : String := ⟨pyTitleL s.data false⟩

/-- The id fallback of `_extract_navigation_title` (lines 671-674):
`element["id"].replace("-", " ").replace("_", " ").title()` when the id
is truthy. -/
def navTitleFromId (n : Node) : Option String :=
  match attrOf n "id" with
  | some v =>
    if v.data.isEmpty then none
    else some (pyTitleCase (pyReplace (pyReplace v "-" " ") "_" " "))
  | none => none

/-- The element tag siblings before the node at `path`, nearest first
(`find_previous_sibling` chain). -/
def prevElemSiblings (root : Node) (path : List Nat) : List Node :=
  match subtreeAt root path.dropLast, path.getLast? with
  | some (.elem _ _ cs), some idx =>
    ((cs.take idx).filter (fun c => (tagOf c).isSome)).reverse
  | _, _ => []

/-- `_extract_navigation_title` (lines 637-676): nearest preceding
heading sibling, else first heading descendant, else first descendant
with a title-like class, else a truthy `aria-label`, else the id
fallback. -/
def extract_navigation_title (root : Node) (el : List Nat × Node) : Option String :=
  match (prevElemSiblings root el.1).find? (hasTagIn headingTags) with
  | some h => some (getTextStrip h)
  | none =>
    match (findAllNode (hasTagIn headingTags) el.2).head? with
    | some h => some (getTextStrip h.2)
    | none =>
      match (title_classes.filterMap
          (fun cls => (findAllNode (classNavPred cls) el.2).head?)).head? with
      | some t => some (getTextStrip t.2)
      | none =>
        match attrOf el.2 "aria-label" with
        | some v => if v.data.isEmpty then navTitleFromId el.2 else some v
        | none => navTitleFromId el.2

/-- First-occurrence dedup by path, modelling the `set(...)` pass. -/
def dedupByPath : List (List Nat × Node) → List (List Nat) → List (List Nat × Node)
  | [], _ => []
  | x :: rest, seen =>
    if x.1 ∈ seen then dedupByPath rest seen
    else x :: dedupByPath rest (x.1 :: seen)

/-- `extract_navigation` (lines 465-517): `<nav>` elements, elements
with a navigation-related class, and `<ul>/<ol>` lists with at least 3
anchor descendants; each surviving candidate with a non-empty item
structure becomes a section. -/
def extract_navigation (root : Node) : List NavSection :=
  let nav_elements := findAllNode (hasTag "nav") root
  let class_nav_elements :=
    nav_classes.flatMap (fun cls => findAllNode (classNavPred cls) root)
  let list_elements := (findAllNode (hasTagIn ["ul", "ol"]) root).filter
    (fun lt => 3 ≤ (findAllNode (hasTag "a") lt.2).length)
  (dedupByPath (nav_elements ++ class_nav_elements ++ list_elements) []).filterMap
    (fun el =>
      let nav_structure := extract_hierarchical_navigation el.2
      if nav_structure.isEmpty then none
      else some ⟨extract_navigation_title root el, (tagOf el.2).getD "",
        classListOf el.2, nav_structure⟩)

/-- The markup family of the claim: a document whose single child is a
`<ul>` whose children are `<li><a href=…>…</a></li>` items. -/
def navA (h t : String) : Node := .elem "a" [("href", h)] [.text t]

def navLi (q : String × String) : Node := .elem "li" [] [navA q.1 q.2]

def navDoc (l : List (String × String)) : Node :=
  .elem "[document]" [] [.elem "ul" [] (l.map navLi)]

lemma descendantsFrom_navLi (p : List Nat) (q : String × String) :
    descendantsFrom p (navLi q) =
      [(p ++ [0], navA q.1 q.2), (p ++ [0] ++ [0], Node.text q.2)] := by
  show descChildren p 0 [navA q.1 q.2] = _
  simp [descChildren, descendantsFrom, navA]

lemma navDoc_desc (l : List (String × String)) :
    descendantsFrom [] (navDoc l) =
      ([0], Node.elem "ul" [] (l.map navLi)) :: descChildren [0] 0 (l.map navLi) := by
  show descChildren [] 0 [Node.elem "ul" [] (l.map navLi)] = _
  simp [descChildren, descendantsFrom]

/-- A predicate false on the `<li>`, `<a>` and text nodes of the link
list finds nothing among the list's descendants. -/
lemma navLi_children_filter (p : List Nat × Node → Bool)
    (hli : ∀ pa q, p (pa, navLi q) = false)
    (ha : ∀ pa a b, p (pa, navA a b) = false)
    (htx : ∀ pa t, p (pa, Node.text t) = false) :
    ∀ (l : List (String × String)) (path : List Nat) (i : Nat),
      (descChildren path i (l.map navLi)).filter p = [] := by
  intro l
  induction l with
  | nil => intro path i; rfl
  | cons q rest ih =>
    intro path i
    simp [descChildren, descendantsFrom_navLi, List.filter_cons, List.filter_append,
      hli, ha, htx, ih]

/-- Each `<li><a>…</a></li>` item contributes exactly one anchor
descendant. -/
lemma navLi_children_anchor_count :
    ∀ (l : List (String × String)) (path : List Nat) (i : Nat),
      ((descChildren path i (l.map navLi)).filter
        (fun x => hasTag "a" x.2)).length = l.length := by
  intro l
  induction l with
  | nil => intro path i; rfl
  | cons q rest ih =>
    intro path i
    have hLi : ∀ q' : String × String, hasTag "a" (navLi q') = false := fun _ => rfl
    have hA : ∀ a b : String, hasTag "a" (navA a b) = true := fun _ _ => rfl
    have hT : ∀ t : String, hasTag "a" (Node.text t) = false := fun _ => rfl
    simp [descChildren, descendantsFrom_navLi, List.filter_cons, List.filter_append,
      hLi, hA, hT, ih]

lemma getTextStrip_single (tag : String) (attrs : List (String × String)) (t : String) :
    getTextStrip (.elem tag attrs [.text t]) = pyStrip t := by
  unfold getTextStrip pyStrip
  by_cases hse : pyStripL t.data = []
  · simp [nodeTextParts, nodeTextPartsList, hse]
  · simp [nodeTextParts, nodeTextPartsList, hse]

/-- Processing one `<li><a href=h>t</a></li>` yields the single link
item `(h, t.strip(), inactive, level 0)`. -/
lemma process_navLi (q : String × String) :
    process_list_item (nodeSize (navLi q)) (navLi q) 0 =
      [NavItem.link q.1 (pyStrip q.2) false 0] := by
  have hget : getTextStrip (Node.elem "a" [("href", q.1)] [Node.text q.2]) = pyStrip q.2 :=
    getTextStrip_single _ _ _
  show process_list_item (2 + 1) (navLi q) 0 = _
  simp [process_list_item, navLi, navA, directChildren, isHrefAnchor, hasTag, tagOf,
    hasHref, attrOf, mkLinkItem, hget, has_active_marker, classListOf, findAllNode,
    descendantsFrom, descChildren, hasTagIn, joinWith, containsSub, active_classes,
    List.find?]

/-- Flat-mapping `_process_list_item` over the `<li>` descendants of
the link list yields one level-0 link per pair. -/
lemma items_navLi :
    ∀ (l : List (String × String)) (path : List Nat) (i : Nat),
      ((descChildren path i (l.map navLi)).filter (fun x => hasTag "li" x.2)).flatMap
        (fun li => process_list_item (nodeSize li.2) li.2 0) =
      l.map (fun q => NavItem.link q.1 (pyStrip q.2) false 0) := by
  intro l
  induction l with
  | nil => intro path i; rfl
  | cons q rest ih =>
    intro path i
    have hLi : ∀ q' : String × String, hasTag "li" (navLi q') = true := fun _ => rfl
    have hA : ∀ a b : String, hasTag "li" (navA a b) = false := fun _ _ => rfl
    have hT : ∀ t : String, hasTag "li" (Node.text t) = false := fun _ => rfl
    simp [descChildren, descendantsFrom_navLi, List.filter_cons, List.filter_append,
      hLi, hA, hT, process_navLi, ih]

lemma filter_isHrefAnchor_navLi :
    ∀ l : List (String × String), (l.map navLi).filter isHrefAnchor = []
  | [] => rfl
  | q :: rest => by
    simp [List.filter_cons, (show isHrefAnchor (navLi q) = false from rfl),
      filter_isHrefAnchor_navLi rest]

lemma countP_navLinks (l : List (String × String)) :
    (l.map (fun q => NavItem.link q.1 (pyStrip q.2) false 0)).countP
      (fun it => match it with | NavItem.link _ _ _ 0 => true | _ => false) = l.length := by
  induction l with
  | nil => rfl
  | cons q rest ih => simp [List.countP_cons, ih]

/-- **C9.** For markup whose only navigation candidate is a single
`<ul>` of `<li><a>` items: with exactly 2 anchor descendants,
`extract_navigation` yields no section; with 3 or more, it yields
exactly one section — untitled, of element type `ul`, class-free —
whose items are one level-0 link per anchor, hence 3 or more level-0
link items. -/
theorem navigation_list_threshold (l : List (String × String)) :
    (l.length = 2 → extract_navigation (navDoc l) = []) ∧
    (3 ≤ l.length →
      extract_navigation (navDoc l) =
        [⟨none, "ul", [], l.map (fun q => NavItem.link q.1 (pyStrip q.2) false 0)⟩] ∧
      3 ≤ (l.map (fun q => NavItem.link q.1 (pyStrip q.2) false 0)).countP
        (fun it => match it with | NavItem.link _ _ _ 0 => true | _ => false)) := by
  have hnav : findAllNode (hasTag "nav") (navDoc l) = [] := by
    unfold findAllNode
    rw [navDoc_desc]
    have hUl : hasTag "nav" (Node.elem "ul" [] (l.map navLi)) = false := rfl
    have hrest := navLi_children_filter (fun x => hasTag "nav" x.2)
      (fun _ _ => rfl) (fun _ _ _ => rfl) (fun _ _ => rfl) l [0] 0
    simp [List.filter_cons, hUl, hrest]
  have hcls : ∀ cls, findAllNode (classNavPred cls) (navDoc l) = [] := by
    intro cls
    unfold findAllNode
    rw [navDoc_desc]
    have hUl : classNavPred cls (Node.elem "ul" [] (l.map navLi)) = false := rfl
    have hrest := navLi_children_filter (fun x => classNavPred cls x.2)
      (fun _ _ => rfl) (fun _ _ _ => rfl) (fun _ _ => rfl) l [0] 0
    simp [List.filter_cons, hUl, hrest]
  have hclsflat : nav_classes.flatMap
      (fun cls => findAllNode (classNavPred cls) (navDoc l)) = [] := by
    simp [nav_classes, List.flatMap_cons, List.flatMap_nil, hcls]
  have hanchors : (findAllNode (hasTag "a") (Node.elem "ul" [] (l.map navLi))).length
      = l.length := by
    unfold findAllNode
    show ((descChildren [] 0 (l.map navLi)).filter _).length = _
    exact navLi_children_anchor_count l [] 0
  have hlists : findAllNode (hasTagIn ["ul", "ol"]) (navDoc l) =
      [([0], Node.elem "ul" [] (l.map navLi))] := by
    unfold findAllNode
    rw [navDoc_desc]
    have hUl : hasTagIn ["ul", "ol"] (Node.elem "ul" [] (l.map navLi)) = true := rfl
    have hrest := navLi_children_filter (fun x => hasTagIn ["ul", "ol"] x.2)
      (fun _ _ => rfl) (fun _ _ _ => rfl) (fun _ _ => rfl) l [0] 0
    simp [List.filter_cons, hUl, hrest]
  have hitems : extract_hierarchical_navigation (Node.elem "ul" [] (l.map navLi)) =
      l.map (fun q => NavItem.link q.1 (pyStrip q.2) false 0) := by
    unfold extract_hierarchical_navigation
    show ((l.map navLi).filter isHrefAnchor).map (mkLinkItem 0) ++
        ((descChildren [] 0 (l.map navLi)).filter (fun x => hasTag "li" x.2)).flatMap
          (fun li => process_list_item (nodeSize li.2) li.2 0) = _
    rw [filter_isHrefAnchor_navLi, items_navLi]
    simp
  have htitle : extract_navigation_title (navDoc l)
      ([0], Node.elem "ul" [] (l.map navLi)) = none := by
    unfold extract_navigation_title
    have hprev : prevElemSiblings (navDoc l) [0] = [] := rfl
    have hh2 : findAllNode (hasTagIn headingTags) (Node.elem "ul" [] (l.map navLi)) = [] := by
      unfold findAllNode
      show (descChildren [] 0 (l.map navLi)).filter _ = []
      exact navLi_children_filter _ (fun _ _ => rfl) (fun _ _ _ => rfl) (fun _ _ => rfl) l [] 0
    have htc : ∀ cls, findAllNode (classNavPred cls) (Node.elem "ul" [] (l.map navLi)) = [] := by
      intro cls
      unfold findAllNode
      show (descChildren [] 0 (l.map navLi)).filter _ = []
      exact navLi_children_filter _ (fun _ _ => rfl) (fun _ _ _ => rfl) (fun _ _ => rfl) l [] 0
    simp [hprev, hh2, htc, title_classes, navTitleFromId, attrOf, List.find?]
  constructor
  · intro h2
    unfold extract_navigation
    simp [hnav, hclsflat, hlists, List.filter_cons, hanchors, h2, dedupByPath]
  · intro h3
    have hcond : 3 ≤ (findAllNode (hasTag "a") (Node.elem "ul" [] (l.map navLi))).length := by
      rw [hanchors]
      exact h3
    have hne : (l.map (fun q => NavItem.link q.1 (pyStrip q.2) false 0)).isEmpty = false := by
      cases l with
      | nil => exact absurd h3 (by decide)
      | cons q rest => rfl
    have htag : (tagOf (Node.elem "ul" [] (l.map navLi))).getD "" = "ul" := rfl
    have hclassesul : classListOf (Node.elem "ul" [] (l.map navLi)) = [] := rfl
    have hne2 : ¬(List.map (fun q => NavItem.link q.1 (pyStrip q.2) false 0) l = []) := by
      cases l with
      | nil => exact absurd h3 (by decide)
      | cons q rest => simp
    refine ⟨?_, ?_⟩
    · unfold extract_navigation
      simp [hnav, hclsflat, hlists, List.filter_cons, hcond, dedupByPath, hitems, hne,
        htitle, htag, hclassesul, List.filterMap_cons, hne2]
    · rw [countP_navLinks]
      exact h3

/-- Witness for C9: two anchors give no section, three give exactly
one section with three level-0 links. -/
theorem navigation_list_threshold_witness :
    extract_navigation (navDoc [("/a", "A"), ("/b", "B")]) = [] ∧
    extract_navigation (navDoc [("/a", "A"), ("/b", "B"), ("/c", "C")]) =
      [⟨none, "ul", [],
        [NavItem.link "/a" (pyStrip "A") false 0, NavItem.link "/b" (pyStrip "B") false 0,
         NavItem.link "/c" (pyStrip "C") false 0]⟩] := by
  constructor
  · exact (navigation_list_threshold [("/a", "A"), ("/b", "B")]).1 rfl
  · exact ((navigation_list_threshold [("/a", "A"), ("/b", "B"), ("/c", "C")]).2
      (by decide)).1

end LlmBrowser
